import Mathlib

/-!
Shallow embedding of `src/graph/model.rs` (the ezkl graph-to-circuit compiler):
execution-bucket scheduling (`assign_execution_buckets`), per-bucket node
configuration (`configure`, `conf_non_op_node`, `conf_lookup`,
`reuse_lookup_conf`, `conf_poly_ops`), output post-processing
(`pack_outputs`, `range_check_outputs`) and the layout pass
(`layout`, `layout_config`).

Modelling conventions:
* `BTreeMap` iteration becomes iteration over key-sorted association lists.
* External collaborators (halo2 `ConstraintSystem`, `Layouter`, the
  `circuit::polynomial` / `circuit::lookup` / `circuit::range` configure and
  layout entry points) are modelled by the data they receive (configuration
  records) and, for layout, by caller-supplied callback functions.
* `Rc<RefCell<...>>` shared lookup regions are modelled as an arena of
  region records indexed by handle; sharing a handle models sharing the
  region object.
* Rust panics (`unwrap` on `None`, out-of-bounds indexing, `unimplemented!`)
  are modelled as distinguished error values, kept apart from the
  `GraphError` variants the code returns deliberately.
-/

namespace EzklModel

/-- Operator descriptor for a fusable polynomial operation
(`crate::circuit::polynomial::Op`; external to model.rs, kept abstract as a
tag type with the `Pack` variant explicit since `pack_outputs` builds it). -/
inductive PolyOp where
  | add
  | mult
  | pack (base : Nat) (scale : Nat)
  | generic (tag : Nat)
  deriving DecidableEq, Repr

/-- Operator descriptor for a lookup-table operation
(`crate::circuit::lookup::Op`; external to model.rs, abstract tag type). -/
inductive LookupOp where
  | relu
  | sigmoid
  | generic (tag : Nat)
  deriving DecidableEq, Repr

/-- `OpKind` of a graph node (from `graph::node`, as used by model.rs). -/
inductive OpKind where
  | input
  | const
  | poly (op : PolyOp)
  | lookup (op : LookupOp)
  | unknown (tag : String)
  deriving DecidableEq, Repr

namespace OpKind

def is_const : OpKind → Bool
  | .const => true
  | _ => false

def is_input : OpKind → Bool
  | .input => true
  | _ => false

def is_poly : OpKind → Bool
  | .poly _ => true
  | _ => false

def is_lookup : OpKind → Bool
  | .lookup _ => true
  | _ => false

end OpKind

/-- An input edge of a node: producer node index plus output slot
(tract `OutletId`). -/
structure Outlet where
  node : Nat
  slot : Nat
  deriving DecidableEq, Repr

/-- A graph node as used by model.rs: index, operation kind, input edges,
shapes, output scale, optional embedded constant, and the scheduling bucket
written once by `assign_execution_buckets`. -/
structure Node where
  idx : Nat
  opkind : OpKind
  inputs : List Outlet
  in_dims : List (List Nat)
  out_dims : List Nat
  out_scale : Nat
  const_value : Option (List Int)
  bucket : Option Nat
  deriving DecidableEq, Repr

/-- Errors of the compiler.  The first five mirror `GraphError` variants that
model.rs returns; the `panic*` variants model Rust aborts (`unwrap` on `None`,
slice/index panics, `unimplemented!`), which are not `GraphError`s. -/
inductive GraphErr where
  | missingNode (i : Nat)
  | wrongMethod (i : Nat) (k : OpKind)
  | opMismatch (i : Nat) (k : OpKind)
  | invalidLookupInputs
  | unsupportedOp
  | panicUnwrapNone
  | panicIndex
  | panicUnimplemented
  deriving DecidableEq, Repr

/-! ## Bucket scheduler: `Model::assign_execution_buckets`

The Rust function folds over `nodes : BTreeMap<usize, Node>` in ascending key
order, looking dependencies up in the `bucketed_nodes : NodeGraph` built so
far via `NodeGraph::filter` (search by node index).  We model the map's
iteration sequence as a `List Node` and the accumulated `NodeGraph` as the
list of already-processed nodes, searched by `idx`.  (Keys of the Rust map
are unique and equal each node's `idx`, so search by `idx` agrees with
`NodeGraph::filter`.)  `NodeGraph::filter` itself is outside model.rs;
its behaviour on an index that is absent from the graph is
modelled from the spec: a dependency that has not been processed "must fail
with a missing node error". -/

/-- Search a list of processed nodes by node index (models
`NodeGraph::filter`, returning `none` instead of panicking when absent;
the absent case is modelled from the spec as a missing-node failure site). -/
def findNode (p : List Node) (i : Nat) : Option Node :=
  p.find? (fun n => n.idx == i)

/-- The loop body collecting `prev_buckets`: walk the node's input edges,
skip dependencies whose opkind `is_const`, record the bucket of the others,
and fail with `MissingNode` when a dependency has no recorded bucket
(or, modelled from the spec, is absent from the processed graph). -/
def collectPrevBuckets (p : List Node) : List Outlet → Except GraphErr (List Nat)
  | [] => .ok []
  | e :: rest =>
    match findNode p e.node with
    | none => .error (.missingNode e.node)
    | some d =>
      if d.opkind.is_const then
        collectPrevBuckets p rest
      else
        match d.bucket with
        | some b =>
          match collectPrevBuckets p rest with
          | .ok bs => .ok (b :: bs)
          | .error err => .error err
        | none => .error (.missingNode e.node)

/-- `prev_buckets.iter().max()`. -/
def listMax : List Nat → Option Nat
  | [] => none
  | x :: xs =>
    match listMax xs with
    | none => some x
    | some m => some (max x m)

/-- The main loop of `assign_execution_buckets`: process the remaining nodes
in order, assigning each a bucket from its kind and the maximum bucket of its
non-constant dependencies.  `Poly`/`Lookup` nodes with no such dependency hit
`prev_bucket.unwrap()` on `None`, modelled as `panicUnwrapNone`. -/
def assignLoop : List Node → List Node → Except GraphErr (List Node)
  | p, [] => .ok p
  | p, node :: rest =>
    match collectPrevBuckets p node.inputs with
    | .error e => .error e
    | .ok bs =>
      match node.opkind with
      | .input => assignLoop (p ++ [{ node with bucket := some 0 }]) rest
      | .const => assignLoop (p ++ [{ node with bucket := none }]) rest
      | .poly _ =>
        match listMax bs with
        | some b => assignLoop (p ++ [{ node with bucket := some b }]) rest
        | none => .error .panicUnwrapNone
      | .lookup _ =>
        match listMax bs with
        | some b => assignLoop (p ++ [{ node with bucket := some (b + 1) }]) rest
        | none => .error .panicUnwrapNone
      | .unknown tag => .error (.wrongMethod node.idx (.unknown tag))

/-- `Model::assign_execution_buckets`, returning the processed nodes in
iteration order with their buckets written (the Rust function groups the same
nodes into a bucket-keyed `NodeGraph`; the grouping is order-preserving
bookkeeping and the per-node bucket values are what the claims are about). -/
def assign_execution_buckets (nodes : List Node) : Except GraphErr (List Node) :=
  assignLoop [] nodes

/-! ## Data model of the configuration pass -/

/-- A public/private flag of `VarVisibility`. -/
inductive Visibility where
  | pub
  | priv
  deriving DecidableEq, Repr

def Visibility.is_public : Visibility → Bool
  | .pub => true
  | .priv => false

/-- `VarVisibility`: which of input, parameters, output are public. -/
structure VarVisibility where
  input : Visibility
  params : Visibility
  output : Visibility
  deriving DecidableEq, Repr

/-- The `RunArgs` fields model.rs reads. -/
structure RunArgs where
  scale : Nat
  bits : Nat
  tolerance : Nat
  pack_base : Nat
  single_lookup : Bool
  deriving DecidableEq, Repr

/-- Which column pool a `VarTensor` was carved from. -/
inductive ColKind where
  | advice
  | fixed
  | instanceCol
  deriving DecidableEq, Repr

/-- A `VarTensor`: a pool column (identified by pool kind and position in the
pool) reshaped to a tensor shape.  `reshape` keeps the column identity. -/
structure VarTensor where
  kind : ColKind
  poolIdx : Nat
  shape : List Nat
  deriving DecidableEq, Repr

def VarTensor.reshape (v : VarTensor) (s : List Nat) : VarTensor :=
  { v with shape := s }

/-- `ModelVars`: the Variable Pool.  The pools are modelled as total families
of columns (the caller is required to size them sufficiently; model.rs indexes
them without bounds failures on well-sized pools). -/
structure ModelVars where
  advices : Nat → VarTensor
  fixed : Nat → VarTensor
  instances : Nat → VarTensor

/-- A well-formed pool hands out columns of its own kind (true of the Rust
`ModelVars` by construction; `vars.rs` is outside model.rs). -/
def ModelVars.WF (v : ModelVars) : Prop :=
  (∀ i, (v.advices i).kind = ColKind.advice) ∧
  (∀ i, (v.fixed i).kind = ColKind.fixed) ∧
  (∀ i, (v.instances i).kind = ColKind.instanceCol)

/-- The standard pool: column `i` of each kind. -/
def ModelVars.std : ModelVars :=
  ⟨fun i => ⟨.advice, i, []⟩, fun i => ⟨.fixed, i, []⟩, fun i => ⟨.instanceCol, i, []⟩⟩

/-- `circuit::polynomial::InputType`: an input reference of a fused
instruction — the k-th external input slot, or the j-th intermediate result
of the fused group. -/
inductive PolyInputType where
  | inputRef (k : Nat)
  | inter (j : Nat)
  deriving DecidableEq, Repr

def PolyInputType.isInter : PolyInputType → Bool
  | .inter _ => true
  | _ => false

def PolyInputType.isInput : PolyInputType → Bool
  | .inputRef _ => true
  | _ => false

/-- `circuit::polynomial::Node`: one fused instruction. -/
structure PolyNode where
  op : PolyOp
  input_order : List PolyInputType
  deriving DecidableEq, Repr

/-- The data handed to `PolyConfig::configure(meta, inputs, output, nodes)`
(the gate construction itself is the arithmetic backend's job). -/
structure PolyConfigData where
  inputs : List VarTensor
  output : VarTensor
  nodes : List PolyNode
  deriving DecidableEq, Repr

/-- The data handed to `RangeCheckConfig::configure(meta, input, output,
tolerance)`. -/
structure RangeCheckConfig where
  input : VarTensor
  output : VarTensor
  tolerance : Nat
  deriving DecidableEq, Repr

/-- A lookup region (`LookupConfig` behind its `Rc<RefCell<..>>`): the shared
table it constrains against (identified by allocation id, carrying the
operator list it was built from, `table.nonlinearities`) plus its input and
output columns.  Regions live in an arena; a `NodeConfig` stores a handle. -/
structure LookupRegion where
  tableId : Nat
  nonlinearities : List LookupOp
  input : VarTensor
  output : VarTensor
  deriving DecidableEq, Repr

/-- `NodeConfig`: the configuration of one node or fused group.  `lookup`
stores a handle into the region arena (sharing a handle = sharing the
`Rc<RefCell<LookupConfig>>` object) plus the contributing node indices;
`poly` stores the fused `PolyConfig` data plus the external input node
indices. -/
inductive NodeConfig where
  | input
  | const
  | lookup (rid : Nat) (inputs : List Nat)
  | poly (cfg : PolyConfigData) (inputs : List Nat)
  | notConfigured
  deriving DecidableEq, Repr

/-- The bucket-keyed node graph: ascending bucket key (`None` first, for
constants), each bucket an ascending-index list of nodes. -/
abbrev NodeGraphL := List (Option Nat × List Node)

def flattenG (g : NodeGraphL) : List Node :=
  g.flatMap (·.2)

/-- The `Model` fields the configuration and layout passes read. -/
structure ModelL where
  nodes : NodeGraphL
  run_args : RunArgs
  visibility : VarVisibility
  outputs : List Nat

/-- `self.nodes.filter(idx)`: search the bucketed graph for the node with the
given index (`NodeGraph::filter` is outside model.rs; search order over
duplicate indices cannot arise since map keys are unique node indices, and
the absent case is modelled from the spec as a missing-node failure). -/
def graphFilter (m : ModelL) (i : Nat) : Option Node :=
  (flattenG m.nodes).find? (fun n => n.idx == i)

def allNodes (m : ModelL) : List Node :=
  flattenG m.nodes

/-- `dims.iter().product()`. -/
def prodList (l : List Nat) : Nat :=
  l.foldl (· * ·) 1

/-- `Model::num_vars_lookup_op`: per-op totals of input/output variable sizes
over all nodes whose opkind is exactly `Lookup(op)`.  Because the filter fixes
the operator, the per-op count map has a single key and the final
max-across-ops step returns that op's summed sizes (input and output sizes
coincide, both being `out_dims` products). -/
def num_vars_lookup_op (m : ModelL) (op : LookupOp) : Nat × Nat :=
  let sizes := ((allNodes m).filter (fun n => n.opkind == OpKind.lookup op)).map
    (fun n => prodList n.out_dims)
  let s := sizes.foldl (· + ·) 0
  (s, s)

/-! ## The `seen : HashSet<usize>` of `conf_poly_ops`

The Rust code deduplicates external inputs through a `HashSet`, used only via
`insert` (membership-test-and-add).  The hash set is external library state
with no observable ordering here; we model it by an arbitrary set
implementation, so that run-to-run independence of the compiled artifact from
the set's internals (claim C5) is a provable statement rather than an
artefact of the embedding. -/

structure SetImpl where
  S : Type
  empty : S
  insert : Nat → S → S
  mem : Nat → S → Bool

def SetImpl.Lawful (σ : SetImpl) : Prop :=
  (∀ x, σ.mem x σ.empty = false) ∧
  (∀ x y s, σ.mem x (σ.insert y s) = (x == y || σ.mem x s))

/-- The list-backed set implementation. -/
def canonSet : SetImpl :=
  ⟨List Nat, [], fun x s => x :: s, fun x s => s.contains x⟩

/-- A second, observationally equal but structurally different
implementation: inserts at the back. -/
def appendSet : SetImpl :=
  ⟨List Nat, [], fun x s => s ++ [x], fun x s => s.contains x⟩

/-! ## `Model::conf_poly_ops` -/

/-- Resolve a node's input edges to full `Node` records via
`self.nodes.filter(i.node)`. -/
def resolveInputs (m : ModelL) : List Outlet → Except GraphErr (List Node)
  | [] => .ok []
  | e :: rest =>
    match graphFilter m e.node with
    | none => .error (.missingNode e.node)
    | some d =>
      match resolveInputs m rest with
      | .ok ds => .ok (d :: ds)
      | .error err => .error err

/-- Build `input_nodes : BTreeMap<(&usize, &PolyOp), Vec<Node>>` — one entry
per member node, keyed by (index, operator), in ascending index order (the
group is already ascending and indices are unique, so map order equals
insertion order), failing with `WrongMethod` on a non-`Poly` member. -/
def mkInputNodes (m : ModelL) : List Node → Except GraphErr (List ((Nat × PolyOp) × List Node))
  | [] => .ok []
  | n :: rest =>
    match n.opkind with
    | .poly f =>
      match resolveInputs m n.inputs with
      | .error err => .error err
      | .ok deps =>
        match mkInputNodes m rest with
        | .error err => .error err
        | .ok tail => .ok (((n.idx, f), deps) :: tail)
    | k => .error (.wrongMethod n.idx k)

/-- `inputs_to_layer`: walk all dependency nodes of the group (entries in
ascending member order, each entry's dependencies in edge order), keep a
dependency iff it is not itself a group member and its index was not seen
before (`!nodes.contains_key(&i.idx) && seen.insert(i.idx)`), and allocate it
a column: from the fixed pool when it is a constant and parameters are
public, else from the advice pool.  Returns the allocated
`(node index, column)` list together with the final advice and fixed
cursors. -/
def extInputsWith (σ : SetImpl) (vis : VarVisibility) (gks : List Nat) (vars : ModelVars) :
    σ.S → Nat → Nat → List Node → List (Nat × VarTensor) × Nat × Nat
  | _, ai, fi, [] => ([], ai, fi)
  | s, ai, fi, d :: rest =>
    if gks.contains d.idx then
      extInputsWith σ vis gks vars s ai fi rest
    else if σ.mem d.idx s then
      extInputsWith σ vis gks vars (σ.insert d.idx s) ai fi rest
    else if d.opkind.is_const && vis.params.is_public then
      let r := extInputsWith σ vis gks vars (σ.insert d.idx s) ai (fi + 1) rest
      ((d.idx, (vars.fixed fi).reshape d.out_dims) :: r.1, r.2)
    else
      let r := extInputsWith σ vis gks vars (σ.insert d.idx s) (ai + 1) fi rest
      ((d.idx, (vars.advices ai).reshape d.out_dims) :: r.1, r.2)

/-- `iter().position(pred)`. -/
def positionIdx {α : Type} (pred : α → Bool) : List α → Option Nat
  | [] => none
  | a :: l => if pred a then some 0 else (positionIdx pred l).map (· + 1)

/-- Build one fused instruction's `input_order`: a group-member dependency
becomes `Inter(inter_counter)` (post-incrementing the running counter), an
external dependency becomes `Input(position in inputs_to_layer)` — the
position lookup's `unwrap` is a panic when the slot is absent (unreachable
for lists produced by `extInputsWith`). -/
def mkOrder (gks : List Nat) (itl : List (Nat × VarTensor)) :
    Nat → List Node → Except GraphErr (List PolyInputType × Nat)
  | ic, [] => .ok ([], ic)
  | ic, d :: rest =>
    if gks.contains d.idx then
      match mkOrder gks itl (ic + 1) rest with
      | .ok (o, ic2) => .ok (.inter ic :: o, ic2)
      | .error err => .error err
    else
      match positionIdx (fun r => r.1 == d.idx) itl with
      | some pos =>
        match mkOrder gks itl ic rest with
        | .ok (o, ic2) => .ok (.inputRef pos :: o, ic2)
        | .error err => .error err
      | none => .error .panicUnwrapNone

/-- `fused_nodes`: one `PolyNode` per member, threading the `inter_counter`
across members in order. -/
def mkFusedNodes (gks : List Nat) (itl : List (Nat × VarTensor)) :
    Nat → List ((Nat × PolyOp) × List Node) → Except GraphErr (List PolyNode)
  | _, [] => .ok []
  | ic, ((_, op), deps) :: rest =>
    match mkOrder gks itl ic deps with
    | .error err => .error err
    | .ok (o, ic2) =>
      match mkFusedNodes gks itl ic2 rest with
      | .error err => .error err
      | .ok tail => .ok (⟨op, o⟩ :: tail)

/-- `Model::conf_poly_ops` (parameterized by the seen-set implementation):
fuse a bucket's polynomial nodes into one configuration.  The output column
is the next advice slot after the external inputs, shaped to the out_dims of
the maximum-index member (`nodes.keys().max().unwrap()` then
`self.nodes.filter(..)`). -/
def conf_poly_opsWith (σ : SetImpl) (m : ModelL) (group : List Node) (vars : ModelVars) :
    Except GraphErr NodeConfig :=
  match mkInputNodes m group with
  | .error e => .error e
  | .ok inodes =>
    let gks := group.map (·.idx)
    let r := extInputsWith σ m.visibility gks vars σ.empty 0 0 (inodes.flatMap (·.2))
    let itl := r.1
    match listMax gks with
    | none => .error .panicUnwrapNone
    | some mk =>
      match graphFilter m mk with
      | none => .error (.missingNode mk)
      | some outNode =>
        match mkFusedNodes gks itl 0 inodes with
        | .error e => .error e
        | .ok fused =>
          .ok (.poly ⟨itl.map (·.2), (vars.advices r.2.1).reshape outNode.out_dims, fused⟩
                     (itl.map (·.1)))

def conf_poly_ops (m : ModelL) (group : List Node) (vars : ModelVars) :
    Except GraphErr NodeConfig :=
  conf_poly_opsWith canonSet m group vars

/-! ## `Model::conf_lookup` and `Model::reuse_lookup_conf` -/

/-- The state threaded through configuration: the results map (ascending node
index), the table registry `tables : BTreeMap<Vec<LookupOp>, Rc<RefCell<Table>>>`
(keyed by operator list, values are table allocation ids), the next fresh
table id, and the arena of lookup regions (region handle = position). -/
structure ConfSt where
  results : List (Nat × NodeConfig)
  tableReg : List (List LookupOp × Nat)
  nextTable : Nat
  regions : List LookupRegion
  deriving Repr

def ConfSt.init : ConfSt := ⟨[], [], 0, []⟩

def lookupTbl (reg : List (List LookupOp × Nat)) (k : List LookupOp) : Option Nat :=
  (reg.find? (fun p => p.1 == k)).map (·.2)

/-- `Model::conf_lookup`: input and output are advice columns 0 and 1 reshaped
to `input_len`; if the table registry has no entry for `[op]` a fresh table is
allocated and registered and a fresh region built on it
(`LookupConfig::configure`), else a fresh region is built on the registered
shared table (`LookupConfig::configure_with_table`).  Either way the region
object itself (the `Rc::new(RefCell::new(config))`) is new. -/
def conf_lookup (_m : ModelL) (node : Node) (input_len : Nat) (vars : ModelVars) (st : ConfSt) :
    Except GraphErr (NodeConfig × ConfSt) :=
  let input := (vars.advices 0).reshape [input_len]
  let output := (vars.advices 1).reshape [input_len]
  let node_inputs := node.inputs.map (·.node)
  match node.opkind with
  | .lookup op =>
    match lookupTbl st.tableReg [op] with
    | none =>
      let tid := st.nextTable
      let region : LookupRegion := ⟨tid, [op], input, output⟩
      let rid := st.regions.length
      .ok (.lookup rid node_inputs,
           { st with tableReg := st.tableReg ++ [([op], tid)]
                     nextTable := tid + 1
                     regions := st.regions ++ [region] })
    | some tid =>
      let region : LookupRegion := ⟨tid, [op], input, output⟩
      let rid := st.regions.length
      .ok (.lookup rid node_inputs, { st with regions := st.regions ++ [region] })
  | c => .error (.wrongMethod node.idx c)

/-- Does a previously stored `NodeConfig` hold a lookup region whose table's
`nonlinearities` equal `[op]`? -/
def isMatch (regions : List LookupRegion) (op : LookupOp) : NodeConfig → Bool
  | .lookup rid _ =>
    match regions.get? rid with
    | some r => r.nonlinearities == [op]
    | none => false
  | _ => false

/-- Scan a config sequence for the first lookup config whose table matches the
operator, returning its region handle.  `reuse_lookup_conf` feeds it the
results map reversed (`prev_configs.iter().rev()`). -/
def scanPrev (regions : List LookupRegion) (op : LookupOp) :
    List (Nat × NodeConfig) → Option Nat
  | [] => none
  | (_, c) :: rest =>
    match c with
    | .lookup rid _ =>
      if isMatch regions op (.lookup rid []) then some rid
      else scanPrev regions op rest
    | _ => scanPrev regions op rest

/-- `Model::reuse_lookup_conf`: for a lookup node, scan previously configured
entries in reverse order for one whose table matches `[op]` and reuse that
region object (same handle, state untouched); otherwise allocate fresh via
`conf_lookup`, sized to `self.num_vars_lookup_op(op)[0]`.  A non-lookup node
is an `OpMismatch`. -/
def reuse_lookup_conf (m : ModelL) (i : Nat) (node : Node) (vars : ModelVars) (st : ConfSt) :
    Except GraphErr (NodeConfig × ConfSt) :=
  match node.opkind with
  | .lookup op =>
    match scanPrev st.regions op st.results.reverse with
    | some rid => .ok (.lookup rid (node.inputs.map (·.node)), st)
    | none => conf_lookup m node (num_vars_lookup_op m op).1 vars st
  | c => .error (.opMismatch i c)

/-- `Model::conf_non_op_node`. -/
def conf_non_op_node (node : Node) : Except GraphErr NodeConfig :=
  match node.opkind with
  | .const => .ok .const
  | .input => .ok .input
  | .unknown _ => .error .panicUnimplemented
  | c => .error (.wrongMethod node.idx c)

/-! ## `Model::configure` -/

/-- `BTreeMap::insert` on an ascending association list. -/
def insertRes {α : Type} (l : List (Nat × α)) (k : Nat) (v : α) : List (Nat × α) :=
  match l with
  | [] => [(k, v)]
  | (k2, v2) :: rest =>
    if k < k2 then (k, v) :: (k2, v2) :: rest
    else if k = k2 then (k, v) :: rest
    else (k2, v2) :: insertRes rest k v

/-- One bucket of `Model::configure`: pass 1 configures Input/Const nodes,
pass 2 configures lookup nodes (per-node sizing when `single_lookup` is off,
reuse scan when on), pass 3 fuses the bucket's polynomial nodes into one
configuration stored under the maximum member index. -/
def configureBucketWith (σ : SetImpl) (m : ModelL) (vars : ModelVars)
    (st : ConfSt) (bnodes : List Node) : Except GraphErr ConfSt :=
  let step1 : Except GraphErr ConfSt :=
    (bnodes.filter (fun n => n.opkind.is_const || n.opkind.is_input)).foldlM
    (fun (st : ConfSt) n =>
      match conf_non_op_node n with
      | .error e => .error e
      | .ok c => .ok { st with results := insertRes st.results n.idx c }) st
  match step1 with
  | .error e => .error e
  | .ok st =>
    let step2 : Except GraphErr ConfSt :=
      (bnodes.filter (fun n => n.opkind.is_lookup)).foldlM
      (fun (st : ConfSt) n =>
        let confd : Except GraphErr (NodeConfig × ConfSt) :=
          if !m.run_args.single_lookup then
            match n.in_dims with
            | [] => .error .panicIndex
            | d :: _ => conf_lookup m n (prodList d) vars st
          else
            reuse_lookup_conf m n.idx n vars st
        match confd with
        | .error e => .error e
        | .ok (c, st2) => .ok { st2 with results := insertRes st2.results n.idx c }) st
    match step2 with
    | .error e => .error e
    | .ok st =>
      let polys := bnodes.filter (fun n => n.opkind.is_poly)
      if polys.isEmpty then .ok st
      else
        match conf_poly_opsWith σ m polys vars with
        | .error e => .error e
        | .ok c =>
          match listMax (polys.map (·.idx)) with
          | none => .error .panicUnwrapNone
          | some mk => .ok { st with results := insertRes st.results mk c }

/-- `Model::output_shapes` (via `self.nodes.filter(o.node).out_dims`). -/
def modelOutputShapes (m : ModelL) : Except GraphErr (List (List Nat)) :=
  m.outputs.mapM (fun o =>
    match graphFilter m o with
    | some n => .ok n.out_dims
    | none => .error (.missingNode o))

/-- `Model::range_check_outputs`: one range-check region per output shape,
comparing advice column 0 against advice column 1 under the configured
tolerance. -/
def range_check_outputs (m : ModelL) (vars : ModelVars) (output_shapes : List (List Nat)) :
    List RangeCheckConfig :=
  output_shapes.map (fun s =>
    ⟨(vars.advices 0).reshape s, (vars.advices 1).reshape s, m.run_args.tolerance⟩)

/-- `Model::pack_outputs`: one single-instruction `Pack` fused region per
output shape, folding the tensor into one element. -/
def pack_outputs (m : ModelL) (vars : ModelVars) (output_shapes : List (List Nat)) :
    List PolyConfigData :=
  output_shapes.map (fun s =>
    ⟨[(vars.advices 0).reshape s], (vars.advices 1).reshape [1],
     [⟨.pack m.run_args.pack_base m.run_args.scale, [.inputRef 0]⟩]⟩)

/-- The compiled `ModelConfig`: the per-node configuration map, the region
arena backing the lookup handles, and the output post-processing regions. -/
structure ModelConfigL where
  configs : List (Nat × NodeConfig)
  regions : List LookupRegion
  range_checks : List RangeCheckConfig
  packed_outputs : List PolyConfigData
  deriving DecidableEq, Repr

/-- `Model::configure` (parameterized by the seen-set implementation): walk
the buckets in ascending order, then, if output visibility is public, build
packing regions and range checks — on single-element shapes when
`pack_base > 1`, on the unchanged output shapes otherwise. -/
def configureWith (σ : SetImpl) (m : ModelL) (vars : ModelVars) :
    Except GraphErr ModelConfigL :=
  match m.nodes.foldlM (fun st (b : Option Nat × List Node) =>
      configureBucketWith σ m vars st b.2) ConfSt.init with
  | .error e => .error e
  | .ok st =>
    match modelOutputShapes m with
    | .error e => .error e
    | .ok oshapes =>
      let rcpk : List RangeCheckConfig × List PolyConfigData :=
        if m.visibility.output.is_public then
          if m.run_args.pack_base > 1 then
            (range_check_outputs m vars (oshapes.map (fun _ => [1])),
             pack_outputs m vars oshapes)
          else
            (range_check_outputs m vars oshapes, [])
        else ([], [])
      .ok ⟨st.results, st.regions, rcpk.1, rcpk.2⟩

def configure (m : ModelL) (vars : ModelVars) : Except GraphErr ModelConfigL :=
  configureWith canonSet m vars

/-! ## Layout pass: `Model::layout` and `Model::layout_config`

The value type of witness tensors (`ValTensor<F>`) is a type parameter `V`;
the arithmetic backend's region layout entry points
(`PolyConfig::layout`, `LookupConfig::layout`, `RangeCheckConfig::layout`)
and the embedding of a constant tensor into `ValTensor` are caller-supplied
functions. -/

def lookupRes {V : Type} (results : List (Nat × V)) (i : Nat) : Option V :=
  (results.find? (fun p => p.1 == i)).map (·.2)

/-- `Model::layout_config`: lay out one configured entry given the results
map.  A `Poly` entry resolves each input index — a constant node re-embeds
its literal value (`const_value` missing is an `unwrap` panic), any other
index must be in the results map (`inputs.get(i).unwrap()`) — and calls the
fused region's layout.  A `Lookup` entry requires exactly one input index
(else `InvalidLookupInputs`), resolves it and calls the region's layout.
`Input`/`Const` entries produce nothing; any other entry is
`UnsupportedOp`. -/
def layout_config {V : Type} (m : ModelL) (regions : List LookupRegion)
    (polyLayout : PolyConfigData → List V → Except GraphErr V)
    (lookupLayout : LookupRegion → V → Except GraphErr V)
    (constEmbed : List Int → V)
    (results : List (Nat × V)) :
    NodeConfig → Except GraphErr (Option V)
  | .poly pcfg idx =>
    match idx.mapM (fun i =>
        match graphFilter m i with
        | none => Except.error (GraphErr.missingNode i)
        | some node =>
          match node.opkind with
          | .const =>
            match node.const_value with
            | some t => Except.ok (constEmbed t)
            | none => Except.error GraphErr.panicUnwrapNone
          | _ =>
            match lookupRes results i with
            | some v => Except.ok v
            | none => Except.error GraphErr.panicUnwrapNone) with
    | .error e => .error e
    | .ok values =>
      match polyLayout pcfg values with
      | .error e => .error e
      | .ok out => .ok (some out)
  | .lookup rid idx =>
    match idx with
    | [i] =>
      match lookupRes results i with
      | none => .error .panicUnwrapNone
      | some v =>
        match regions.get? rid with
        | none => .error .panicIndex
        | some reg =>
          match lookupLayout reg v with
          | .error e => .error e
          | .ok out => .ok (some out)
    | _ => .error .invalidLookupInputs
  | .input => .ok none
  | .const => .ok none
  | .notConfigured => .error .unsupportedOp

/-- The packing loop of `Model::layout`: `outputs[i] =
packed_output.layout(layouter, &outputs[i..i+1])?` — a one-element slice fed
to the fused region's layout entry point, with errors propagating via `?`. -/
def packLoop {V : Type} (polyLayout : PolyConfigData → List V → Except GraphErr V) :
    List PolyConfigData → List V → Nat → Except GraphErr (List V)
  | [], outs, _ => .ok outs
  | c :: cs, outs, i =>
    match outs.get? i with
    | none => .error .panicIndex
    | some v =>
      match polyLayout c [v] with
      | .error e => .error e
      | .ok v2 => packLoop polyLayout cs (outs.set i v2) (i + 1)

/-- The range-check step of `Model::layout`:
`let _ = config.range_checks.iter().zip(outputs).enumerate().map(..).collect_vec();`
— each pair indexes `vars.instances[offset + i]` (an index panic when absent)
and calls `range_check.layout(..)`, but the returned `Result`s are collected
into the discarded `_` binding, so a range-check layout error does not
propagate. -/
def rangePass {V : Type} (rangeLayout : RangeCheckConfig → V → V → Except GraphErr Unit)
    (instanceVals : List V) (offset : Nat) :
    List (RangeCheckConfig × V) → Nat → Except GraphErr Unit
  | [], _ => .ok ()
  | (rc, out) :: rest, i =>
    match instanceVals.get? (offset + i) with
    | none => .error .panicIndex
    | some iv =>
      let _ := rangeLayout rc out iv
      rangePass rangeLayout instanceVals offset rest (i + 1)

/-- `Model::layout`: seed the results map from the inputs (public inputs bind
to instance columns, private ones to the raw witnessed tensors), lay out every
configured entry in ascending index order, collect the model outputs, apply
the packing regions (errors propagate), then run the range checks (whose
layout errors the code discards). -/
def layout {V : Type} (m : ModelL) (mc : ModelConfigL)
    (polyLayout : PolyConfigData → List V → Except GraphErr V)
    (lookupLayout : LookupRegion → V → Except GraphErr V)
    (rangeLayout : RangeCheckConfig → V → V → Except GraphErr Unit)
    (constEmbed : List Int → V)
    (inputs : List V) (instanceVals : List V) : Except GraphErr Unit :=
  let seed : Except GraphErr (List (Nat × V)) :=
    (List.range inputs.length).foldlM (fun acc i =>
      if m.visibility.input.is_public then
        match instanceVals.get? i with
        | none => .error .panicIndex
        | some v => .ok (insertRes acc i v)
      else
        match inputs.get? i with
        | none => .error .panicIndex
        | some v => .ok (insertRes acc i v)) []
  match seed with
  | .error e => .error e
  | .ok results0 =>
    let step : Except GraphErr (List (Nat × V)) :=
      mc.configs.foldlM (fun results (p : Nat × NodeConfig) =>
        match layout_config m mc.regions polyLayout lookupLayout constEmbed results p.2 with
        | .error e => .error e
        | .ok none => .ok results
        | .ok (some v) => .ok (insertRes results p.1 v)) results0
    match step with
    | .error e => .error e
    | .ok results =>
      match m.outputs.mapM (fun o =>
          match lookupRes results o with
          | some v => Except.ok v
          | none => Except.error GraphErr.panicUnwrapNone) with
      | .error e => .error e
      | .ok outputs0 =>
        match packLoop polyLayout mc.packed_outputs outputs0 0 with
        | .error e => .error e
        | .ok outputs =>
          let offset := if m.visibility.input.is_public then inputs.length else 0
          match rangePass rangeLayout instanceVals offset
              (mc.range_checks.zip outputs) 0 with
          | .error e => .error e
          | .ok _ => .ok ()

/-! ## Specification predicates -/

/-- The bucket-assignment rule of the scheduler, per node, read off a final
graph `g`: the node's non-constant dependencies all resolve with buckets
(`collectPrevBuckets` succeeds), and the node's own bucket follows its kind —
`Input` ↦ 0, `Const` ↦ none, `Poly` ↦ the dependencies' maximum, `Lookup` ↦
one plus that maximum. -/
def bucketRule (g : List Node) (n : Node) : Prop :=
  ∃ bs, collectPrevBuckets g n.inputs = .ok bs ∧
    ((n.opkind.is_input = true ∧ n.bucket = some 0) ∨
     (n.opkind.is_const = true ∧ n.bucket = none) ∨
     (n.opkind.is_poly = true ∧ ∃ b, listMax bs = some b ∧ n.bucket = some b) ∨
     (n.opkind.is_lookup = true ∧ ∃ b, listMax bs = some b ∧ n.bucket = some (b + 1)))

/-- Precondition for panic-freedom of the scheduler: every `Poly` or `Lookup`
node has at least one dependency edge whose target is a non-constant node. -/
def depOkPrecond (nodes : List Node) : Prop :=
  ∀ n ∈ nodes, (n.opkind.is_poly || n.opkind.is_lookup) = true →
    ∃ e ∈ n.inputs, ∀ d ∈ nodes, d.idx = e.node → d.opkind.is_const = false

/-! ## Concrete instances used by witnesses and counterexamples -/

/-- Shorthand for a test node with unit shapes. -/
def mkNode (i : Nat) (k : OpKind) (ins : List Nat) : Node :=
  ⟨i, k, ins.map (fun j => ⟨j, 0⟩), [[1]], [1], 0, none, none⟩

/-- An accepted graph in which an `Input` node has a bucketed dependency:
Input 0 → Lookup 1 → Input 2. -/
def cexNodes : List Node :=
  [mkNode 0 .input [], mkNode 1 (.lookup .relu) [0], mkNode 2 .input [1]]

/-- The scheduler's output on `cexNodes`. -/
def cexG : List Node :=
  [{ mkNode 0 .input [] with bucket := some 0 },
   { mkNode 1 (.lookup .relu) [0] with bucket := some 1 },
   { mkNode 2 .input [1] with bucket := some 0 }]

/-- The spec scenario graph: Input 0, Const 1, Poly(Add) 2 on both,
Lookup(ReLU) 3 on the Poly. -/
def exGoodNodes : List Node :=
  [mkNode 0 .input [], mkNode 1 .const [], mkNode 2 (.poly .add) [0, 1],
   mkNode 3 (.lookup .relu) [2]]

/-- The scheduler's output on `exGoodNodes`. -/
def exGoodG : List Node :=
  [{ mkNode 0 .input [] with bucket := some 0 },
   { mkNode 1 .const [] with bucket := none },
   { mkNode 2 (.poly .add) [0, 1] with bucket := some 0 },
   { mkNode 3 (.lookup .relu) [2] with bucket := some 1 }]

/-- A one-input model with public input and public output, `pack_base = 1`,
`single_lookup` off. -/
def exM8 : ModelL :=
  { nodes := [(some 0, [{ mkNode 0 .input [] with bucket := some 0 }])],
    run_args := ⟨7, 8, 0, 1, false⟩,
    visibility := ⟨.pub, .priv, .pub⟩,
    outputs := [0] }

/-- `configure exM8 ModelVars.std`. -/
def exMC8 : ModelConfigL :=
  { configs := [(0, .input)],
    regions := [],
    range_checks := [⟨⟨.advice, 0, [1]⟩, ⟨.advice, 1, [1]⟩, 0⟩],
    packed_outputs := [] }

/-- `exM8` with private input (layout then seeds the results map from the
raw witnessed inputs). -/
def exM6 : ModelL :=
  { exM8 with visibility := ⟨.priv, .priv, .pub⟩ }

/-- A sample lookup region. -/
def demoRegion : LookupRegion :=
  ⟨0, [.relu], ⟨.advice, 0, [1]⟩, ⟨.advice, 1, [1]⟩⟩

/-- State after the first `conf_lookup` (ReLU, length 3) from the empty
configuration state. -/
def stL1 : ConfSt :=
  ⟨[], [([.relu], 0)], 1, [⟨0, [.relu], ⟨.advice, 0, [3]⟩, ⟨.advice, 1, [3]⟩⟩]⟩

/-- State after a second `conf_lookup` (ReLU, length 5) from `stL1`: a new
region on the same table 0, no new table. -/
def stL2 : ConfSt :=
  ⟨[], [([.relu], 0)], 1,
   [⟨0, [.relu], ⟨.advice, 0, [3]⟩, ⟨.advice, 1, [3]⟩⟩,
    ⟨0, [.relu], ⟨.advice, 0, [5]⟩, ⟨.advice, 1, [5]⟩⟩]⟩

/-- A configuration state holding one configured ReLU lookup entry under
key 4. -/
def stW : ConfSt :=
  ⟨[(4, .lookup 0 [2])], [([.relu], 0)], 1,
   [⟨0, [.relu], ⟨.advice, 0, [3]⟩, ⟨.advice, 1, [3]⟩⟩]⟩

/-- Shorthand for a bucketed test node. -/
def bN (i : Nat) (k : OpKind) (ins : List Nat) (b : Option Nat) : Node :=
  { mkNode i k ins with bucket := b }

/-- Fusion scenario 1: `C` (node 2, Poly Add) depends on external inputs `A`
(node 0) and `B` (node 1); only `C` is in the fused group. -/
def m2a : ModelL :=
  { nodes := [(some 0, [bN 0 .input [] (some 0), bN 1 .input [] (some 0),
                        bN 2 (.poly .add) [0, 1] (some 0)])],
    run_args := ⟨7, 8, 0, 1, false⟩, visibility := ⟨.pub, .priv, .pub⟩, outputs := [2] }

def g2a : List Node := [bN 2 (.poly .add) [0, 1] (some 0)]

/-- Fusion scenario 2: a chain `X → A → B → C` with `A`, `B`, `C` (nodes
1, 2, 3, all Poly Add) fused in one group and `X` (node 0) external. -/
def m2b : ModelL :=
  { nodes := [(some 0, [bN 0 .input [] (some 0), bN 1 (.poly .add) [0] (some 0),
                        bN 2 (.poly .add) [1] (some 0), bN 3 (.poly .add) [2] (some 0)])],
    run_args := ⟨7, 8, 0, 1, false⟩, visibility := ⟨.pub, .priv, .pub⟩, outputs := [3] }

def g2b : List Node :=
  [bN 1 (.poly .add) [0] (some 0), bN 2 (.poly .add) [1] (some 0),
   bN 3 (.poly .add) [2] (some 0)]

/-- Dedup/allocation scenario: `C` (node 2, Poly Add) references Input 0,
Const 1 and Input 0 again, with public parameters: the duplicate reference
reuses slot 0, and the constant routes to the fixed pool. -/
def m4 : ModelL :=
  { nodes := [(none, [bN 1 .const [] none]),
              (some 0, [bN 0 .input [] (some 0), bN 2 (.poly .add) [0, 1, 0] (some 0)])],
    run_args := ⟨7, 8, 0, 1, false⟩, visibility := ⟨.pub, .pub, .pub⟩, outputs := [2] }

def g4 : List Node := [bN 2 (.poly .add) [0, 1, 0] (some 0)]

/-! # Theorems -/

theorem ModelVars.std_wf : ModelVars.WF ModelVars.std :=
  ⟨fun _ => rfl, fun _ => rfl, fun _ => rfl⟩

/-! ## Scheduler lemmas -/

theorem findNode_append {p q : List Node} {i : Nat} {d : Node}
    (h : findNode p i = some d) : findNode (p ++ q) i = some d := by
  induction p with
  | nil => simp [findNode, List.find?] at h
  | cons a p ih =>
    simp only [findNode, List.cons_append, List.find?] at h ⊢
    cases ha : (a.idx == i) with
    | true => simp only [ha] at h; exact h
    | false =>
      simp only [ha] at h ⊢
      exact ih h

theorem findNode_mem {l : List Node} {i : Nat} {d : Node}
    (h : findNode l i = some d) : d ∈ l :=
  List.mem_of_find?_eq_some h

theorem findNode_idx {l : List Node} {i : Nat} {d : Node}
    (h : findNode l i = some d) : d.idx = i := by
  have := List.find?_some h
  simpa using this

theorem collectPrevBuckets_append {p q : List Node} {ins : List Outlet} {bs : List Nat}
    (h : collectPrevBuckets p ins = .ok bs) :
    collectPrevBuckets (p ++ q) ins = .ok bs := by
  induction ins generalizing bs with
  | nil => simpa [collectPrevBuckets] using h
  | cons e rest ih =>
    simp only [collectPrevBuckets] at h ⊢
    cases hf : findNode p e.node with
    | none => simp only [hf] at h; cases h
    | some d =>
      simp only [hf] at h
      simp only [findNode_append hf]
      cases hc : d.opkind.is_const with
      | true => simp only [hc, if_true] at h ⊢; exact ih h
      | false =>
        simp only [hc, Bool.false_eq_true, if_false] at h ⊢
        cases hb : d.bucket with
        | none => simp only [hb] at h; cases h
        | some b =>
          simp only [hb] at h ⊢
          cases hr : collectPrevBuckets p rest with
          | error err => simp only [hr] at h; cases h
          | ok bs2 =>
            simp only [hr] at h
            simp only [ih hr]
            exact h

theorem bucketRule_append {p q : List Node} {n : Node}
    (h : bucketRule p n) : bucketRule (p ++ q) n := by
  obtain ⟨bs, hcb, hrest⟩ := h
  exact ⟨bs, collectPrevBuckets_append hcb, hrest⟩

theorem assignLoop_good (rest : List Node) :
    ∀ p g, (∀ n ∈ p, bucketRule p n) → assignLoop p rest = .ok g →
      ∀ n ∈ g, bucketRule g n := by
  induction rest with
  | nil =>
    intro p g hp h
    simp only [assignLoop] at h
    cases h
    exact hp
  | cons node rest ih =>
    intro p g hp h
    simp only [assignLoop] at h
    cases hc : collectPrevBuckets p node.inputs with
    | error e => simp only [hc] at h; cases h
    | ok bs =>
      simp only [hc] at h
      have hstep : ∀ (node2 : Node), node2.inputs = node.inputs → bucketRule (p ++ [node2]) node2 →
          ∀ n ∈ p ++ [node2], bucketRule (p ++ [node2]) n := by
        intro node2 _ h2 n hn
        rcases List.mem_append.mp hn with hn | hn
        · exact bucketRule_append (hp n hn)
        · rcases List.mem_singleton.mp hn with rfl
          exact h2
      cases hk : node.opkind with
      | input =>
        simp only [hk] at h
        refine ih _ g (hstep { node with opkind := .input, bucket := some 0 } rfl ?_) h
        exact ⟨bs, collectPrevBuckets_append hc, Or.inl ⟨rfl, rfl⟩⟩
      | const =>
        simp only [hk] at h
        refine ih _ g (hstep { node with opkind := .const, bucket := none } rfl ?_) h
        exact ⟨bs, collectPrevBuckets_append hc, Or.inr (Or.inl ⟨rfl, rfl⟩)⟩
      | poly op =>
        simp only [hk] at h
        cases hm : listMax bs with
        | none => simp only [hm] at h; cases h
        | some b =>
          simp only [hm] at h
          refine ih _ g
            (hstep { node with opkind := .poly op, bucket := some b } rfl ?_) h
          exact ⟨bs, collectPrevBuckets_append hc,
            Or.inr (Or.inr (Or.inl ⟨rfl, b, hm, rfl⟩))⟩
      | lookup op =>
        simp only [hk] at h
        cases hm : listMax bs with
        | none => simp only [hm] at h; cases h
        | some b =>
          simp only [hm] at h
          refine ih _ g
            (hstep { node with opkind := .lookup op, bucket := some (b + 1) } rfl ?_) h
          exact ⟨bs, collectPrevBuckets_append hc,
            Or.inr (Or.inr (Or.inr ⟨rfl, b, hm, rfl⟩))⟩
      | unknown tag =>
        simp only [hk] at h
        cases h

theorem collect_dep_bucket {g : List Node} {ins : List Outlet} {bs : List Nat}
    (h : collectPrevBuckets g ins = .ok bs) :
    ∀ e ∈ ins, ∀ d, findNode g e.node = some d → d.opkind.is_const = false →
      ∃ bd, d.bucket = some bd ∧ bd ∈ bs := by
  induction ins generalizing bs with
  | nil => intro e he; cases he
  | cons e2 rest ih =>
    intro e he d hfd hdc
    simp only [collectPrevBuckets] at h
    cases hf : findNode g e2.node with
    | none => simp only [hf] at h; cases h
    | some d2 =>
      simp only [hf] at h
      rcases List.mem_cons.mp he with rfl | he2
      · -- e = e2, so d = d2
        rw [hf] at hfd
        cases hfd
        simp only [hdc, Bool.false_eq_true, if_false] at h
        cases hb : d.bucket with
        | none => simp only [hb] at h; cases h
        | some b =>
          simp only [hb] at h
          cases hr : collectPrevBuckets g rest with
          | error err => simp only [hr] at h; cases h
          | ok bs2 =>
            simp only [hr] at h
            cases h
            exact ⟨b, rfl, List.mem_cons_self _ _⟩
      · cases hc2 : d2.opkind.is_const with
        | true =>
          simp only [hc2, if_true] at h
          exact ih h e he2 d hfd hdc
        | false =>
          simp only [hc2, Bool.false_eq_true, if_false] at h
          cases hb : d2.bucket with
          | none => simp only [hb] at h; cases h
          | some b =>
            simp only [hb] at h
            cases hr : collectPrevBuckets g rest with
            | error err => simp only [hr] at h; cases h
            | ok bs2 =>
              simp only [hr] at h
              cases h
              obtain ⟨bd, hbd, hmem⟩ := ih hr e he2 d hfd hdc
              exact ⟨bd, hbd, List.mem_cons_of_mem _ hmem⟩

theorem listMax_none {bs : List Nat} (h : listMax bs = none) : bs = [] := by
  cases bs with
  | nil => rfl
  | cons a l =>
    simp only [listMax] at h
    cases hl : listMax l with
    | none => simp only [hl] at h; cases h
    | some m => simp only [hl] at h; cases h

theorem listMax_le {bs : List Nat} {x m : Nat} (hx : x ∈ bs) (hm : listMax bs = some m) :
    x ≤ m := by
  induction bs generalizing m with
  | nil => cases hx
  | cons a l ih =>
    simp only [listMax] at hm
    cases hl : listMax l with
    | none =>
      simp only [hl] at hm
      cases hm
      rcases List.mem_cons.mp hx with rfl | hx2
      · exact le_refl _
      · rw [listMax_none hl] at hx2; cases hx2
    | some m2 =>
      simp only [hl] at hm
      cases hm
      rcases List.mem_cons.mp hx with rfl | hx2
      · exact le_max_left _ _
      · exact le_trans (ih hx2 hl) (le_max_right _ _)

/-- C1 counterexample: `assign_execution_buckets` accepts `cexNodes`, whose
`Input` node 2 depends on `Lookup` node 1; node 1 is assigned bucket 1 while
its dependent node 2 is assigned bucket 0, so the dependency's bucket is not
less than or equal to the dependent's. -/
theorem bucket_mono_counterexample :
    assign_execution_buckets cexNodes = .ok cexG ∧
    (⟨1, 0⟩ : Outlet) ∈ ({ mkNode 2 .input [1] with bucket := some 0 } : Node).inputs ∧
    findNode cexG 2 = some { mkNode 2 .input [1] with bucket := some 0 } ∧
    findNode cexG 1 = some { mkNode 1 (.lookup .relu) [0] with bucket := some 1 } ∧
    ¬((1 : Nat) ≤ 0) :=
  ⟨rfl, by decide, rfl, rfl, by decide⟩

/-- C1 (amended): for every graph the scheduler accepts, every node's bucket
follows its kind (`Input` ↦ 0, `Const` ↦ none, `Poly` ↦ max of non-constant
dependency buckets, `Lookup` ↦ that max plus one); consequently, for every
dependency edge whose dependent is a `Poly` node the dependency's bucket is
less than or equal to the dependent's, and strictly less when the dependent
is a `Lookup` node.  (For an `Input` dependent the code pins the bucket to 0
regardless of its dependencies, so the edge inequality does not extend to
that degenerate case — see `bucket_mono_counterexample`.) -/
theorem opkind_exclusive (k : OpKind) :
    (k.is_input = true → k.is_const = false ∧ k.is_poly = false ∧ k.is_lookup = false) ∧
    (k.is_const = true → k.is_input = false ∧ k.is_poly = false ∧ k.is_lookup = false) ∧
    (k.is_poly = true → k.is_input = false ∧ k.is_const = false ∧ k.is_lookup = false) ∧
    (k.is_lookup = true → k.is_input = false ∧ k.is_const = false ∧ k.is_poly = false) := by
  cases k <;> simp [OpKind.is_input, OpKind.is_const, OpKind.is_poly, OpKind.is_lookup]

theorem bucket_assignment_amended (nodes g : List Node)
    (h : assign_execution_buckets nodes = .ok g) :
    (∀ n ∈ g, bucketRule g n) ∧
    (∀ n ∈ g, ∀ e ∈ n.inputs, ∀ d, findNode g e.node = some d →
      ∀ bd b, d.bucket = some bd → n.bucket = some b →
        (n.opkind.is_poly = true → bd ≤ b) ∧
        (n.opkind.is_lookup = true → bd < b)) := by
  have hg := assignLoop_good nodes [] g (by intro n hn; cases hn) h
  refine ⟨hg, ?_⟩
  intro n hn e he d hfd bd b hdb hnb
  obtain ⟨bs, hcb, hdisj⟩ := hg n hn
  have hdmem : d ∈ g := findNode_mem hfd
  have hdc : d.opkind.is_const = false := by
    cases hdck : d.opkind.is_const with
    | false => rfl
    | true =>
      obtain ⟨bs2, _, hdisj2⟩ := hg d hdmem
      rcases hdisj2 with ⟨hk, _⟩ | ⟨_, hbk⟩ | ⟨hk, _⟩ | ⟨hk, _⟩
      · rw [((opkind_exclusive d.opkind).1 hk).1] at hdck; simp at hdck
      · rw [hbk] at hdb; cases hdb
      · rw [((opkind_exclusive d.opkind).2.2.1 hk).2.1] at hdck; simp at hdck
      · rw [((opkind_exclusive d.opkind).2.2.2 hk).2.1] at hdck; simp at hdck
  obtain ⟨bd2, hbd2, hmem⟩ := collect_dep_bucket hcb e he d hfd hdc
  rw [hdb] at hbd2
  cases hbd2
  constructor
  · intro hp
    rcases hdisj with ⟨hk, _⟩ | ⟨hk, _⟩ | ⟨_, b2, hmax, hb2⟩ | ⟨hk, _⟩
    · rw [((opkind_exclusive n.opkind).1 hk).2.1] at hp; simp at hp
    · rw [((opkind_exclusive n.opkind).2.1 hk).2.1] at hp; simp at hp
    · rw [hb2] at hnb
      cases hnb
      exact listMax_le hmem hmax
    · rw [((opkind_exclusive n.opkind).2.2.2 hk).2.2] at hp; simp at hp
  · intro hl
    rcases hdisj with ⟨hk, _⟩ | ⟨hk, _⟩ | ⟨hk, _⟩ | ⟨_, b2, hmax, hb2⟩
    · rw [((opkind_exclusive n.opkind).1 hk).2.2] at hl; simp at hl
    · rw [((opkind_exclusive n.opkind).2.1 hk).2.2] at hl; simp at hl
    · rw [((opkind_exclusive n.opkind).2.2.1 hk).2.2] at hl; simp at hl
    · rw [hb2] at hnb
      cases hnb
      exact Nat.lt_succ_of_le (listMax_le hmem hmax)

/-- Witness for C1: the amended theorem applied to the spec's scenario graph
(Input → Poly(Add) with a Const → Lookup(ReLU)). -/
theorem bucket_assignment_amended_witness :
    assign_execution_buckets exGoodNodes = .ok exGoodG ∧
    (∀ n ∈ exGoodG, bucketRule exGoodG n) :=
  ⟨rfl, (bucket_assignment_amended exGoodNodes exGoodG rfl).1⟩

/-! ## C7: missing dependency fails with `MissingNode` -/

theorem assignLoop_append (a : List Node) : ∀ p b,
    assignLoop p (a ++ b) =
      match assignLoop p a with
      | .ok p2 => assignLoop p2 b
      | .error e => .error e := by
  induction a with
  | nil => intro p b; simp [assignLoop]
  | cons node rest ih =>
    intro p b
    cases hc : collectPrevBuckets p node.inputs with
    | error e => simp [assignLoop, hc]
    | ok bs =>
      cases hk : node.opkind with
      | input =>
        simp only [List.cons_append, assignLoop, hc, hk]
        exact ih _ b
      | const =>
        simp only [List.cons_append, assignLoop, hc, hk]
        exact ih _ b
      | poly op =>
        cases hm : listMax bs with
        | none => simp [assignLoop, hc, hk, hm]
        | some m =>
          simp only [List.cons_append, assignLoop, hc, hk, hm]
          exact ih _ b
      | lookup op =>
        cases hm : listMax bs with
        | none => simp [assignLoop, hc, hk, hm]
        | some m =>
          simp only [List.cons_append, assignLoop, hc, hk, hm]
          exact ih _ b
      | unknown tag => simp [assignLoop, hc, hk]

theorem collect_error_of_unresolved {p : List Node} {ins1 ins2 : List Outlet}
    {e : Outlet} {bs : List Nat}
    (h1 : collectPrevBuckets p ins1 = .ok bs) (h2 : findNode p e.node = none) :
    collectPrevBuckets p (ins1 ++ e :: ins2) = .error (.missingNode e.node) := by
  induction ins1 generalizing bs with
  | nil =>
    simp only [List.nil_append, collectPrevBuckets, h2]
  | cons e2 rest ih =>
    simp only [collectPrevBuckets, List.cons_append] at h1 ⊢
    cases hf : findNode p e2.node with
    | none => simp only [hf] at h1; cases h1
    | some d =>
      simp only [hf] at h1 ⊢
      cases hc : d.opkind.is_const with
      | true =>
        simp only [hc, if_true] at h1 ⊢
        exact ih h1
      | false =>
        simp only [hc, Bool.false_eq_true, if_false] at h1 ⊢
        cases hb : d.bucket with
        | none => simp only [hb] at h1; cases h1
        | some b =>
          simp only [hb] at h1 ⊢
          cases hr : collectPrevBuckets p rest with
          | error err => simp only [hr] at h1; cases h1
          | ok bs2 =>
            simp [ih hr]

/-- C7: if, after processing a prefix of the node list successfully, the next
node has a dependency edge `e` whose earlier edges all resolve but whose own
target has no recorded bucket in the processed graph, the whole scheduler run
fails with `MissingNode e.node` — the referencing node is assigned no bucket
and the error is returned as is. -/
theorem missing_node_error (l1 l2 : List Node) (n : Node) (p : List Node)
    (ins1 ins2 : List Outlet) (e : Outlet) (bs : List Nat)
    (h0 : assignLoop [] l1 = .ok p)
    (hin : n.inputs = ins1 ++ e :: ins2)
    (h1 : collectPrevBuckets p ins1 = .ok bs)
    (h2 : findNode p e.node = none) :
    assign_execution_buckets (l1 ++ n :: l2) = .error (.missingNode e.node) := by
  unfold assign_execution_buckets
  rw [assignLoop_append l1 [] (n :: l2), h0]
  simp only [assignLoop]
  rw [hin, collect_error_of_unresolved h1 h2]

/-- Witness for C7: the spec's failure scenario — node 5 references node 7,
which has no recorded bucket when node 5 is processed, and the run fails with
`MissingNode 7`. -/
theorem missing_node_error_witness :
    assignLoop [] [mkNode 0 .input []] = .ok [{ mkNode 0 .input [] with bucket := some 0 }] ∧
    (mkNode 5 (.poly .add) [7]).inputs = [] ++ (⟨7, 0⟩ : Outlet) :: [] ∧
    collectPrevBuckets [{ mkNode 0 .input [] with bucket := some 0 }] [] = .ok [] ∧
    findNode [{ mkNode 0 .input [] with bucket := some 0 }] 7 = none ∧
    assign_execution_buckets [mkNode 0 .input [], mkNode 5 (.poly .add) [7]] =
      .error (.missingNode 7) :=
  ⟨rfl, rfl, rfl, rfl,
   missing_node_error [mkNode 0 .input []] [] (mkNode 5 (.poly .add) [7])
     [{ mkNode 0 .input [] with bucket := some 0 }] [] [] ⟨7, 0⟩ [] rfl rfl rfl rfl⟩

/-! ## C10: panic-freedom of the scheduler -/

theorem collect_error_shape {p : List Node} {ins : List Outlet} {e : GraphErr}
    (h : collectPrevBuckets p ins = .error e) : ∃ j, e = .missingNode j := by
  induction ins generalizing e with
  | nil => simp [collectPrevBuckets] at h
  | cons e2 rest ih =>
    simp only [collectPrevBuckets] at h
    cases hf : findNode p e2.node with
    | none =>
      simp only [hf] at h
      cases h
      exact ⟨e2.node, rfl⟩
    | some d =>
      simp only [hf] at h
      cases hc : d.opkind.is_const with
      | true =>
        simp only [hc, if_true] at h
        exact ih h
      | false =>
        simp only [hc, Bool.false_eq_true, if_false] at h
        cases hb : d.bucket with
        | none =>
          simp only [hb] at h
          cases h
          exact ⟨e2.node, rfl⟩
        | some b =>
          simp only [hb] at h
          cases hr : collectPrevBuckets p rest with
          | error err =>
            simp only [hr] at h
            cases h
            exact ih hr
          | ok bs =>
            simp only [hr] at h
            cases h

theorem collect_found {p : List Node} {ins : List Outlet} {bs : List Nat}
    (h : collectPrevBuckets p ins = .ok bs) :
    ∀ e ∈ ins, ∃ d, findNode p e.node = some d := by
  induction ins generalizing bs with
  | nil => intro e he; cases he
  | cons e2 rest ih =>
    intro e he
    simp only [collectPrevBuckets] at h
    cases hf : findNode p e2.node with
    | none => simp only [hf] at h; cases h
    | some d =>
      simp only [hf] at h
      rcases List.mem_cons.mp he with rfl | he2
      · exact ⟨d, hf⟩
      · cases hc : d.opkind.is_const with
        | true =>
          simp only [hc, if_true] at h
          exact ih h e he2
        | false =>
          simp only [hc, Bool.false_eq_true, if_false] at h
          cases hb : d.bucket with
          | none => simp only [hb] at h; cases h
          | some b =>
            simp only [hb] at h
            cases hr : collectPrevBuckets p rest with
            | error err => simp only [hr] at h; cases h
            | ok bs2 => exact ih hr e he2

theorem listMax_of_mem {bs : List Nat} {x : Nat} (hx : x ∈ bs) :
    ∃ m, listMax bs = some m := by
  cases bs with
  | nil => cases hx
  | cons a l =>
    simp only [listMax]
    cases listMax l with
    | none => exact ⟨a, rfl⟩
    | some m => exact ⟨max a m, rfl⟩

theorem assignLoop_no_panic (nodes : List Node) (hpre : depOkPrecond nodes) :
    ∀ (rest p : List Node), (∀ r ∈ rest, r ∈ nodes) →
      (∀ d ∈ p, (∃ x ∈ nodes, d.opkind = x.opkind ∧ d.idx = x.idx) ∧
        (d.opkind.is_const = false → ∃ b, d.bucket = some b)) →
      assignLoop p rest ≠ .error .panicUnwrapNone := by
  intro rest
  induction rest with
  | nil => intro p _ _; simp [assignLoop]
  | cons node rest ih =>
    intro p hrest hshadow
    have hnode_mem : node ∈ nodes := hrest node (List.mem_cons_self _ _)
    have hrest2 : ∀ r ∈ rest, r ∈ nodes := fun r hr => hrest r (List.mem_cons_of_mem _ hr)
    cases hc : collectPrevBuckets p node.inputs with
    | error e =>
      obtain ⟨j, hj⟩ := collect_error_shape hc
      simp [assignLoop, hc, hj]
    | ok bs =>
      cases hk : node.opkind with
      | input =>
        simp only [assignLoop, hc, hk]
        refine ih _ hrest2 ?_
        intro d hd
        rcases List.mem_append.mp hd with hd | hd
        · exact hshadow d hd
        · rcases List.mem_singleton.mp hd with rfl
          exact ⟨⟨node, hnode_mem, hk.symm, rfl⟩, fun _ => ⟨0, rfl⟩⟩
      | const =>
        simp only [assignLoop, hc, hk]
        refine ih _ hrest2 ?_
        intro d hd
        rcases List.mem_append.mp hd with hd | hd
        · exact hshadow d hd
        · rcases List.mem_singleton.mp hd with rfl
          exact ⟨⟨node, hnode_mem, hk.symm, rfl⟩,
            fun hco => by simp [OpKind.is_const] at hco⟩
      | poly op =>
        obtain ⟨e, he, hall⟩ := hpre node hnode_mem (by simp [hk, OpKind.is_poly])
        obtain ⟨d, hfd⟩ := collect_found hc e he
        have hdmem : d ∈ p := findNode_mem hfd
        have hdidx : d.idx = e.node := findNode_idx hfd
        obtain ⟨⟨x, hxm, hxo, hxi⟩, _⟩ := hshadow d hdmem
        have hdc : d.opkind.is_const = false := by
          rw [hxo]
          exact hall x hxm (hxi ▸ hdidx)
        obtain ⟨bd, _, hbmem⟩ := collect_dep_bucket hc e he d hfd hdc
        obtain ⟨m, hm⟩ := listMax_of_mem hbmem
        simp only [assignLoop, hc, hk, hm]
        refine ih _ hrest2 ?_
        intro d2 hd2
        rcases List.mem_append.mp hd2 with hd2 | hd2
        · exact hshadow d2 hd2
        · rcases List.mem_singleton.mp hd2 with rfl
          exact ⟨⟨node, hnode_mem, hk.symm, rfl⟩, fun _ => ⟨m, rfl⟩⟩
      | lookup op =>
        obtain ⟨e, he, hall⟩ := hpre node hnode_mem (by simp [hk, OpKind.is_lookup])
        obtain ⟨d, hfd⟩ := collect_found hc e he
        have hdmem : d ∈ p := findNode_mem hfd
        have hdidx : d.idx = e.node := findNode_idx hfd
        obtain ⟨⟨x, hxm, hxo, hxi⟩, _⟩ := hshadow d hdmem
        have hdc : d.opkind.is_const = false := by
          rw [hxo]
          exact hall x hxm (hxi ▸ hdidx)
        obtain ⟨bd, _, hbmem⟩ := collect_dep_bucket hc e he d hfd hdc
        obtain ⟨m, hm⟩ := listMax_of_mem hbmem
        simp only [assignLoop, hc, hk, hm]
        refine ih _ hrest2 ?_
        intro d2 hd2
        rcases List.mem_append.mp hd2 with hd2 | hd2
        · exact hshadow d2 hd2
        · rcases List.mem_singleton.mp hd2 with rfl
          exact ⟨⟨node, hnode_mem, hk.symm, rfl⟩, fun _ => ⟨m + 1, rfl⟩⟩
      | unknown tag =>
        simp [assignLoop, hc, hk]

/-- C10: under the precondition that every `Poly`/`Lookup` node has at least
one dependency whose target is non-constant, `assign_execution_buckets` never
hits the `prev_bucket.unwrap()` panic; without it, a graph whose `Poly` (or
`Lookup`) node has no inputs, or only constant inputs, aborts via the unwrap
of `None` rather than returning a `GraphError`. -/
theorem assign_unwrap_panic (nodes : List Node) (hpre : depOkPrecond nodes) :
    assign_execution_buckets nodes ≠ .error .panicUnwrapNone ∧
    assign_execution_buckets [mkNode 0 (.poly .add) []] = .error .panicUnwrapNone ∧
    assign_execution_buckets [mkNode 0 .const [], mkNode 1 (.poly .add) [0]] =
      .error .panicUnwrapNone ∧
    assign_execution_buckets [mkNode 0 .const [], mkNode 1 (.lookup .relu) [0]] =
      .error .panicUnwrapNone := by
  refine ⟨?_, rfl, rfl, rfl⟩
  exact assignLoop_no_panic nodes hpre nodes [] (fun r hr => hr)
    (fun d hd => absurd hd (List.not_mem_nil d))

/-- Witness for C10: the precondition holds on the spec scenario graph and the
scheduler run on it is panic-free. -/
theorem assign_unwrap_panic_witness :
    depOkPrecond exGoodNodes ∧
    assign_execution_buckets exGoodNodes ≠ .error .panicUnwrapNone :=
  ⟨by unfold depOkPrecond; decide,
   (assign_unwrap_panic exGoodNodes (by unfold depOkPrecond; decide)).1⟩

/-! ## C8: packing is created only for `pack_base > 1` -/

theorem range_check_shapes (m : ModelL) (vars : ModelVars) (shapes : List (List Nat)) :
    (range_check_outputs m vars shapes).map (·.input.shape) = shapes ∧
    (range_check_outputs m vars shapes).map (·.output.shape) = shapes := by
  constructor <;>
    simp [range_check_outputs, VarTensor.reshape, List.map_map, Function.comp_def,
          List.map_id']

/-- C8: when output visibility is public and `pack_base ≤ 1` (in particular
`pack_base = 1`), `configure` creates no packing regions and the range-check
regions carry the model's output shapes unchanged; when `pack_base > 1` it
creates one packing region per output and the range-check regions carry the
single-element shape `[1]`. -/
theorem pack_base_one_no_packing (m : ModelL) (vars : ModelVars) (mc : ModelConfigL)
    (h : configure m vars = .ok mc) (hpub : m.visibility.output.is_public = true) :
    ∃ oshapes, modelOutputShapes m = .ok oshapes ∧
      (m.run_args.pack_base ≤ 1 →
        mc.packed_outputs = [] ∧
        mc.range_checks.map (·.input.shape) = oshapes ∧
        mc.range_checks.map (·.output.shape) = oshapes) ∧
      (m.run_args.pack_base > 1 →
        mc.packed_outputs.length = oshapes.length ∧
        mc.range_checks.map (·.input.shape) = oshapes.map (fun _ => [1]) ∧
        mc.range_checks.map (·.output.shape) = oshapes.map (fun _ => [1])) := by
  unfold configure configureWith at h
  cases hst : m.nodes.foldlM (fun st (b : Option Nat × List Node) =>
      configureBucketWith canonSet m vars st b.2) ConfSt.init with
  | error e => simp only [hst] at h; cases h
  | ok st =>
    simp only [hst] at h
    cases hos : modelOutputShapes m with
    | error e => simp only [hos] at h; cases h
    | ok oshapes =>
      simp only [hos, hpub, if_true] at h
      refine ⟨oshapes, rfl, ?_, ?_⟩
      · intro hle
        have hnot : ¬(m.run_args.pack_base > 1) := Nat.not_lt.mpr hle
        simp only [hnot, if_false] at h
        cases h
        exact ⟨rfl, (range_check_shapes m vars oshapes).1,
               (range_check_shapes m vars oshapes).2⟩
      · intro hgt
        simp only [hgt, if_true] at h
        cases h
        refine ⟨by simp [pack_outputs], ?_, ?_⟩
        · exact (range_check_shapes m vars (oshapes.map (fun _ => [1]))).1.trans (by simp)
        · exact (range_check_shapes m vars (oshapes.map (fun _ => [1]))).2.trans (by simp)

/-- Witness for C8: the one-input public-output model with `pack_base = 1`. -/
theorem pack_base_one_no_packing_witness :
    configure exM8 ModelVars.std = .ok exMC8 ∧
    exM8.visibility.output.is_public = true ∧
    (∃ oshapes, modelOutputShapes exM8 = .ok oshapes ∧
      (exM8.run_args.pack_base ≤ 1 →
        exMC8.packed_outputs = [] ∧
        exMC8.range_checks.map (·.input.shape) = oshapes ∧
        exMC8.range_checks.map (·.output.shape) = oshapes) ∧
      (exM8.run_args.pack_base > 1 →
        exMC8.packed_outputs.length = oshapes.length ∧
        exMC8.range_checks.map (·.input.shape) = oshapes.map (fun _ => [1]) ∧
        exMC8.range_checks.map (·.output.shape) = oshapes.map (fun _ => [1]))) :=
  ⟨rfl, rfl, pack_base_one_no_packing exM8 ModelVars.std exMC8 rfl rfl⟩

/-! ## C9: a Lookup entry is laid out iff it has exactly one input -/

/-- C9: during layout, a `Lookup` configuration entry with other than exactly
one input reference fails with `InvalidLookupInputs` (for every backend
layout callback — no region layout is invoked); with exactly one reference
that resolves in the results map, `layout_config` returns exactly the lookup
region's layout applied to the single resolved tensor. -/
theorem lookup_layout_single_input {V : Type} (m : ModelL) (regions : List LookupRegion)
    (polyLayout : PolyConfigData → List V → Except GraphErr V)
    (lookupLayout : LookupRegion → V → Except GraphErr V)
    (constEmbed : List Int → V)
    (results : List (Nat × V)) (rid : Nat) (idx : List Nat) :
    (idx.length ≠ 1 →
      layout_config m regions polyLayout lookupLayout constEmbed results (.lookup rid idx) =
        .error .invalidLookupInputs) ∧
    (∀ i v reg, idx = [i] → lookupRes results i = some v → regions.get? rid = some reg →
      layout_config m regions polyLayout lookupLayout constEmbed results (.lookup rid idx) =
        (lookupLayout reg v).map some) := by
  constructor
  · intro hlen
    cases idx with
    | nil => rfl
    | cons a t =>
      cases t with
      | nil => exact absurd rfl hlen
      | cons b t2 => rfl
  · intro i v reg hidx hres hreg
    subst hidx
    unfold layout_config
    simp only [hres, hreg]
    cases lookupLayout reg v <;> simp [Except.map]

/-- Witness for C9: with one region, results `{0 ↦ 42}` and an identity
lookup layout callback, a `Lookup` entry with zero inputs fails with
`InvalidLookupInputs`, and one with the single input `0` lays out to `42`. -/
theorem lookup_layout_single_input_witness :
    (([] : List Nat).length ≠ 1 ∧
     layout_config (V := Nat) exM8 [demoRegion] (fun _ _ => .error .unsupportedOp)
       (fun _ v => .ok v) (fun _ => 0) [(0, 42)] (.lookup 0 []) =
         .error .invalidLookupInputs) ∧
    (lookupRes [(0, (42 : Nat))] 0 = some 42 ∧
     [demoRegion].get? 0 = some demoRegion ∧
     layout_config (V := Nat) exM8 [demoRegion] (fun _ _ => .error .unsupportedOp)
       (fun _ v => .ok v) (fun _ => 0) [(0, 42)] (.lookup 0 [0]) = .ok (some 42)) := by
  refine ⟨⟨by decide, ?_⟩, rfl, rfl, ?_⟩
  · exact (lookup_layout_single_input exM8 [demoRegion] (fun _ _ => .error .unsupportedOp)
      (fun _ v => .ok v) (fun _ => 0) [(0, 42)] 0 []).1 (by decide)
  · have h := (lookup_layout_single_input exM8 [demoRegion] (fun _ _ => .error .unsupportedOp)
      (fun _ v => .ok v) (fun _ => 0) [(0, 42)] 0 [0]).2 0 42 demoRegion rfl rfl rfl
    simpa using h

/-! ## C6: range-check layout errors are discarded (code bug) -/

/-- C6 (code bug): `Model::layout` binds the collected results of the
range-check layouts to `_` and returns `Ok(())`; on a model configuration
with one range-check region, a range-check layout callback that fails with
any error still leaves `layout` returning success, contradicting the stated
propagation policy. -/
theorem range_check_error_dropped (err : GraphErr) :
    layout (V := Nat) exM6 exMC8
      (fun _ _ => .error .unsupportedOp) (fun _ _ => .error .unsupportedOp)
      (fun _ _ _ => .error err) (fun _ => 0) [5] [9] = .ok () := rfl

/-! ## C3: lookup table dedup and region reuse -/

theorem get?_append_length {α : Type} (l : List α) (a : α) (l2 : List α) :
    (l ++ a :: l2).get? l.length = some a := by
  induction l with
  | nil => rfl
  | cons x xs ih => simpa using ih

theorem get?_append_lt {α : Type} (l l2 : List α) (i : Nat) (h : i < l.length) :
    (l ++ l2).get? i = l.get? i := by
  induction l generalizing i with
  | nil => cases h
  | cons x xs ih =>
    cases i with
    | zero => rfl
    | succ n => simpa using ih n (Nat.lt_of_succ_lt_succ h)

theorem lookupTbl_append_self {reg : List (List LookupOp × Nat)} {k : List LookupOp} {t : Nat}
    (h : lookupTbl reg k = none) : lookupTbl (reg ++ [(k, t)]) k = some t := by
  induction reg with
  | nil => simp [lookupTbl, List.find?]
  | cons p rest ih =>
    simp only [lookupTbl, List.cons_append, List.find?] at h ⊢
    cases hp : (p.1 == k) with
    | true => simp only [hp] at h; cases h
    | false =>
      simp only [hp] at h ⊢
      exact ih h

theorem isMatch_true_lookup {regions : List LookupRegion} {op : LookupOp} {c : NodeConfig}
    (h : isMatch regions op c = true) : ∃ rid ins, c = NodeConfig.lookup rid ins := by
  cases c with
  | lookup rid ins => exact ⟨rid, ins, rfl⟩
  | input => cases h
  | const => cases h
  | poly cfg ins => cases h
  | notConfigured => cases h

theorem scanPrev_hit (regions : List LookupRegion) (op : LookupOp) (ka rid : Nat)
    (ins : List Nat) (rest : List (Nat × NodeConfig))
    (h : isMatch regions op (.lookup rid ins) = true) :
    scanPrev regions op ((ka, .lookup rid ins) :: rest) = some rid := by
  have h2 : isMatch regions op (.lookup rid []) = true := h
  simp [scanPrev, h2]

theorem scanPrev_skip (regions : List LookupRegion) (op : LookupOp) (ka : Nat)
    (ca : NodeConfig) (rest : List (Nat × NodeConfig))
    (h : isMatch regions op ca = false) :
    scanPrev regions op ((ka, ca) :: rest) = scanPrev regions op rest := by
  cases ca with
  | lookup rid ins =>
    have h2 : isMatch regions op (.lookup rid []) = false := h
    simp [scanPrev, h2]
  | input => rfl
  | const => rfl
  | poly cfg ins => rfl
  | notConfigured => rfl

/-- Scanning the reversed results finds a matching entry with the largest key
(first match in reverse order of a key-sorted map). -/
theorem scanPrev_rev_found {regions : List LookupRegion} {op : LookupOp}
    (l : List (Nat × NodeConfig)) {rid : Nat}
    (h : scanPrev regions op l.reverse = some rid) :
    ∃ k ins, (k, NodeConfig.lookup rid ins) ∈ l ∧
      isMatch regions op (.lookup rid ins) = true ∧
      (l.Pairwise (fun x y => x.1 < y.1) →
        ∀ k2 c2, (k2, c2) ∈ l → isMatch regions op c2 = true → k2 ≤ k) := by
  induction l using List.reverseRecOn with
  | nil => simp [scanPrev] at h
  | append_singleton l2 a ih =>
    rw [List.reverse_append, List.reverse_singleton, List.singleton_append] at h
    obtain ⟨ka, ca⟩ := a
    by_cases hm : isMatch regions op ca = true
    · obtain ⟨rida, insa, ha2⟩ := isMatch_true_lookup hm
      subst ha2
      rw [scanPrev_hit regions op ka rida insa l2.reverse hm] at h
      cases h
      refine ⟨ka, insa, by simp, hm, ?_⟩
      intro hsort k2 c2 hmem hmatch
      rcases List.mem_append.mp hmem with hmem | hmem
      · exact le_of_lt ((List.pairwise_append.mp hsort).2.2 (k2, c2) hmem
          (ka, NodeConfig.lookup rid insa) (by simp))
      · rcases List.mem_singleton.mp hmem with h2
        cases h2
        exact le_refl _
    · have hmf : isMatch regions op ca = false := by
        cases hval : isMatch regions op ca with
        | false => rfl
        | true => exact absurd hval hm
      rw [scanPrev_skip regions op ka ca l2.reverse hmf] at h
      obtain ⟨k, ins, hmem, hmatch, hmax⟩ := ih h
      refine ⟨k, ins, List.mem_append_left _ hmem, hmatch, ?_⟩
      intro hsort k2 c2 hmem2 hmatch2
      rcases List.mem_append.mp hmem2 with hmem2 | hmem2
      · exact hmax (List.pairwise_append.mp hsort).1 k2 c2 hmem2 hmatch2
      · rcases List.mem_singleton.mp hmem2 with h2
        cases h2
        rw [hmf] at hmatch2
        cases hmatch2

/-- If no stored entry matches, the reverse scan finds nothing. -/
theorem scanPrev_rev_none {regions : List LookupRegion} {op : LookupOp}
    (l : List (Nat × NodeConfig))
    (h : ∀ k c, (k, c) ∈ l → isMatch regions op c = false) :
    scanPrev regions op l.reverse = none := by
  induction l using List.reverseRecOn with
  | nil => rfl
  | append_singleton l2 a ih =>
    rw [List.reverse_append, List.reverse_singleton, List.singleton_append]
    obtain ⟨ka, ca⟩ := a
    rw [scanPrev_skip regions op ka ca l2.reverse (h ka ca (by simp))]
    exact ih (fun k c hm => h k c (List.mem_append_left _ hm))

/-- C3: lookup deduplication and reuse.
First conjunct (`single_lookup` disabled): two sequential `conf_lookup`
configurations for the same operator never allocate two distinct tables —
the second's region carries the same table id as the first's and the table
counter does not advance.  Second conjunct (`single_lookup` enabled):
`reuse_lookup_conf` scans previously configured lookup entries in reverse
(key-descending) order; when a config whose table matches `[op]` exists, the
result reuses exactly that config's region handle — the one with the largest
key when the results map is key-sorted — and allocates nothing (the state is
unchanged); when none matches it defers to `conf_lookup` sized to
`num_vars_lookup_op(op)[0]`, which allocates a fresh region of exactly that
footprint. -/
theorem lookup_dedup_reuse :
    (∀ (m : ModelL) (n1 n2 : Node) (l1 l2 : Nat) (vars : ModelVars)
       (st st1 st2 : ConfSt) (op : LookupOp) (c1 c2 : NodeConfig),
       n1.opkind = .lookup op → n2.opkind = .lookup op →
       conf_lookup m n1 l1 vars st = .ok (c1, st1) →
       conf_lookup m n2 l2 vars st1 = .ok (c2, st2) →
       st2.nextTable = st1.nextTable ∧
       ∃ rid1 rid2 ins1 ins2 r1 r2,
         c1 = .lookup rid1 ins1 ∧ c2 = .lookup rid2 ins2 ∧
         st2.regions.get? rid1 = some r1 ∧ st2.regions.get? rid2 = some r2 ∧
         r1.tableId = r2.tableId) ∧
    (∀ (m : ModelL) (i : Nat) (node : Node) (vars : ModelVars) (st : ConfSt)
       (op : LookupOp) (rid : Nat),
       node.opkind = .lookup op →
       (scanPrev st.regions op st.results.reverse = some rid →
         reuse_lookup_conf m i node vars st =
           .ok (.lookup rid (node.inputs.map (·.node)), st) ∧
         ∃ k ins, (k, NodeConfig.lookup rid ins) ∈ st.results ∧
           isMatch st.regions op (.lookup rid ins) = true ∧
           (st.results.Pairwise (fun x y => x.1 < y.1) →
             ∀ k2 c2, (k2, c2) ∈ st.results → isMatch st.regions op c2 = true → k2 ≤ k)) ∧
       ((∀ k c, (k, c) ∈ st.results → isMatch st.regions op c = false) →
         reuse_lookup_conf m i node vars st =
           conf_lookup m node (num_vars_lookup_op m op).1 vars st ∧
         (∀ c2 st2, conf_lookup m node (num_vars_lookup_op m op).1 vars st = .ok (c2, st2) →
           ∃ ins r, c2 = .lookup st.regions.length ins ∧
             st2.regions.get? st.regions.length = some r ∧
             r.input.shape = [(num_vars_lookup_op m op).1] ∧
             r.nonlinearities = [op]))) := by
  constructor
  · intro m n1 n2 l1 l2 vars st st1 st2 op c1 c2 hop1 hop2 h1 h2
    simp only [conf_lookup, hop1] at h1
    simp only [conf_lookup, hop2] at h2
    cases ht : lookupTbl st.tableReg [op] with
    | none =>
      simp only [ht] at h1
      cases h1
      have ht2 : lookupTbl (st.tableReg ++ [([op], st.nextTable)]) [op] = some st.nextTable :=
        lookupTbl_append_self ht
      simp only [ht2] at h2
      cases h2
      refine ⟨rfl, st.regions.length, (st.regions ++ [_]).length, _, _,
        ⟨st.nextTable, [op], (vars.advices 0).reshape [l1], (vars.advices 1).reshape [l1]⟩,
        ⟨st.nextTable, [op], (vars.advices 0).reshape [l2], (vars.advices 1).reshape [l2]⟩,
        rfl, rfl, ?_, ?_, rfl⟩
      · rw [get?_append_lt _ _ _ (by simp)]
        exact get?_append_length st.regions _ []
      · exact get?_append_length (st.regions ++ [_]) _ []
    | some tid =>
      simp only [ht] at h1
      cases h1
      simp only [ht] at h2
      cases h2
      refine ⟨rfl, st.regions.length, (st.regions ++ [_]).length, _, _,
        ⟨tid, [op], (vars.advices 0).reshape [l1], (vars.advices 1).reshape [l1]⟩,
        ⟨tid, [op], (vars.advices 0).reshape [l2], (vars.advices 1).reshape [l2]⟩,
        rfl, rfl, ?_, ?_, rfl⟩
      · rw [get?_append_lt _ _ _ (by simp)]
        exact get?_append_length st.regions _ []
      · exact get?_append_length (st.regions ++ [_]) _ []
  · intro m i node vars st op rid hop
    constructor
    · intro hscan
      refine ⟨?_, scanPrev_rev_found st.results hscan⟩
      simp only [reuse_lookup_conf, hop, hscan]
    · intro hall
      have hscan : scanPrev st.regions op st.results.reverse = none :=
        scanPrev_rev_none st.results hall
      refine ⟨by simp only [reuse_lookup_conf, hop, hscan], ?_⟩
      intro c2 st2 h2
      simp only [conf_lookup, hop] at h2
      cases ht : lookupTbl st.tableReg [op] with
      | none =>
        simp only [ht] at h2
        cases h2
        exact ⟨node.inputs.map (·.node),
          ⟨st.nextTable, [op],
           (vars.advices 0).reshape [(num_vars_lookup_op m op).1],
           (vars.advices 1).reshape [(num_vars_lookup_op m op).1]⟩,
          rfl, get?_append_length st.regions _ [], rfl, rfl⟩
      | some tid =>
        simp only [ht] at h2
        cases h2
        exact ⟨node.inputs.map (·.node),
          ⟨tid, [op],
           (vars.advices 0).reshape [(num_vars_lookup_op m op).1],
           (vars.advices 1).reshape [(num_vars_lookup_op m op).1]⟩,
          rfl, get?_append_length st.regions _ [], rfl, rfl⟩

/-- Witness for C3: two ReLU lookup nodes configured in sequence share table
id 0 without advancing the table counter, and with `single_lookup` on, a
later ReLU node reuses region handle 0 of the entry stored under key 4,
leaving the state unchanged. -/
theorem lookup_dedup_reuse_witness :
    (conf_lookup exM8 (mkNode 4 (.lookup .relu) [2]) 3 ModelVars.std ConfSt.init =
       .ok (.lookup 0 [2], stL1) ∧
     conf_lookup exM8 (mkNode 6 (.lookup .relu) [3]) 5 ModelVars.std stL1 =
       .ok (.lookup 1 [3], stL2) ∧
     (stL2.nextTable = stL1.nextTable ∧
      ∃ rid1 rid2 ins1 ins2 r1 r2,
        NodeConfig.lookup 0 [2] = .lookup rid1 ins1 ∧
        NodeConfig.lookup 1 [3] = .lookup rid2 ins2 ∧
        stL2.regions.get? rid1 = some r1 ∧ stL2.regions.get? rid2 = some r2 ∧
        r1.tableId = r2.tableId)) ∧
    (scanPrev stW.regions .relu stW.results.reverse = some 0 ∧
     reuse_lookup_conf exM8 6 (mkNode 6 (.lookup .relu) [3]) ModelVars.std stW =
       .ok (.lookup 0 [3], stW)) :=
  ⟨⟨rfl, rfl,
    lookup_dedup_reuse.1 exM8 (mkNode 4 (.lookup .relu) [2]) (mkNode 6 (.lookup .relu) [3])
      3 5 ModelVars.std ConfSt.init stL1 stL2 .relu (.lookup 0 [2]) (.lookup 1 [3])
      rfl rfl rfl rfl⟩,
   ⟨rfl,
    ((lookup_dedup_reuse.2 exM8 6 (mkNode 6 (.lookup .relu) [3]) ModelVars.std stW
      .relu 0 rfl).1 rfl).1⟩⟩

/-! ## Structural lemmas for `conf_poly_ops` (C2, C4) -/

theorem resolveInputs_get {m : ModelL} {ins : List Outlet} {ds : List Node}
    (h : resolveInputs m ins = .ok ds) :
    ds.length = ins.length ∧
    ∀ p e, ins.get? p = some e →
      ∃ d, ds.get? p = some d ∧ graphFilter m e.node = some d := by
  induction ins generalizing ds with
  | nil =>
    simp only [resolveInputs] at h
    cases h
    exact ⟨rfl, fun p e hp => by simp at hp⟩
  | cons e2 rest ih =>
    simp only [resolveInputs] at h
    cases hf : graphFilter m e2.node with
    | none => simp only [hf] at h; cases h
    | some d =>
      simp only [hf] at h
      cases hr : resolveInputs m rest with
      | error err => simp only [hr] at h; cases h
      | ok ds2 =>
        simp only [hr] at h
        cases h
        obtain ⟨hlen, hget⟩ := ih hr
        refine ⟨by simp [hlen], ?_⟩
        intro p e hp
        cases p with
        | zero =>
          simp only [List.get?_cons_zero] at hp
          cases hp
          exact ⟨d, rfl, hf⟩
        | succ n =>
          simp only [List.get?_cons_succ] at hp
          exact hget n e hp

theorem resolveInputs_mem {m : ModelL} {ins : List Outlet} {ds : List Node}
    (h : resolveInputs m ins = .ok ds) :
    ∀ d ∈ ds, ∃ e ∈ ins, graphFilter m e.node = some d := by
  induction ins generalizing ds with
  | nil =>
    simp only [resolveInputs] at h
    cases h
    intro d hd
    cases hd
  | cons e2 rest ih =>
    simp only [resolveInputs] at h
    cases hf : graphFilter m e2.node with
    | none => simp only [hf] at h; cases h
    | some d2 =>
      simp only [hf] at h
      cases hr : resolveInputs m rest with
      | error err => simp only [hr] at h; cases h
      | ok ds2 =>
        simp only [hr] at h
        cases h
        intro d hd
        rcases List.mem_cons.mp hd with rfl | hd2
        · exact ⟨e2, List.mem_cons_self _ _, hf⟩
        · obtain ⟨e, he, hfe⟩ := ih hr d hd2
          exact ⟨e, List.mem_cons_of_mem _ he, hfe⟩

theorem mkInputNodes_get {m : ModelL} {group : List Node}
    {inodes : List ((Nat × PolyOp) × List Node)}
    (h : mkInputNodes m group = .ok inodes) :
    inodes.length = group.length ∧
    ∀ j gn, group.get? j = some gn →
      ∃ op deps, gn.opkind = .poly op ∧ inodes.get? j = some ((gn.idx, op), deps) ∧
        resolveInputs m gn.inputs = .ok deps := by
  induction group generalizing inodes with
  | nil =>
    simp only [mkInputNodes] at h
    cases h
    exact ⟨rfl, fun j gn hp => by simp at hp⟩
  | cons n rest ih =>
    simp only [mkInputNodes] at h
    cases hk : n.opkind with
    | poly f =>
      simp only [hk] at h
      cases hr : resolveInputs m n.inputs with
      | error err => simp only [hr] at h; cases h
      | ok deps =>
        simp only [hr] at h
        cases ht : mkInputNodes m rest with
        | error err => simp only [ht] at h; cases h
        | ok tail =>
          simp only [ht] at h
          cases h
          obtain ⟨hlen, hget⟩ := ih ht
          refine ⟨by simp [hlen], ?_⟩
          intro j gn hp
          cases j with
          | zero =>
            simp only [List.get?_cons_zero] at hp
            cases hp
            exact ⟨f, deps, hk, rfl, hr⟩
          | succ n2 =>
            simp only [List.get?_cons_succ] at hp
            exact hget n2 gn hp
    | input => simp only [hk] at h; cases h
    | const => simp only [hk] at h; cases h
    | lookup op => simp only [hk] at h; cases h
    | unknown tag => simp only [hk] at h; cases h

theorem mkInputNodes_flat_mem {m : ModelL} {group : List Node}
    {inodes : List ((Nat × PolyOp) × List Node)}
    (h : mkInputNodes m group = .ok inodes) :
    ∀ d ∈ inodes.flatMap (·.2),
      ∃ gn ∈ group, ∃ e ∈ gn.inputs, graphFilter m e.node = some d := by
  induction group generalizing inodes with
  | nil =>
    simp only [mkInputNodes] at h
    cases h
    intro d hd
    cases hd
  | cons n rest ih =>
    simp only [mkInputNodes] at h
    cases hk : n.opkind with
    | poly f =>
      simp only [hk] at h
      cases hr : resolveInputs m n.inputs with
      | error err => simp only [hr] at h; cases h
      | ok deps =>
        simp only [hr] at h
        cases ht : mkInputNodes m rest with
        | error err => simp only [ht] at h; cases h
        | ok tail =>
          simp only [ht] at h
          cases h
          intro d hd
          simp only [List.flatMap_cons] at hd
          rcases List.mem_append.mp hd with hd | hd
          · obtain ⟨e, he, hfe⟩ := resolveInputs_mem hr d hd
            exact ⟨n, List.mem_cons_self _ _, e, he, hfe⟩
          · obtain ⟨gn, hgn, e, he, hfe⟩ := ih ht d hd
            exact ⟨gn, List.mem_cons_of_mem _ hgn, e, he, hfe⟩
    | input => simp only [hk] at h; cases h
    | const => simp only [hk] at h; cases h
    | lookup op => simp only [hk] at h; cases h
    | unknown tag => simp only [hk] at h; cases h

theorem positionIdx_found {α : Type} (pred : α → Bool) :
    ∀ (l : List α) (k : Nat), positionIdx pred l = some k →
      ∃ x, l.get? k = some x ∧ pred x = true := by
  intro l
  induction l with
  | nil => intro k h; cases h
  | cons a l2 ih =>
    intro k h
    simp only [positionIdx] at h
    cases hp : pred a with
    | true =>
      simp only [hp, if_true] at h
      cases h
      exact ⟨a, rfl, hp⟩
    | false =>
      simp only [hp, Bool.false_eq_true, if_false] at h
      cases hpos : positionIdx pred l2 with
      | none => simp only [hpos] at h; cases h
      | some k2 =>
        simp only [hpos, Option.map_some'] at h
        cases h
        obtain ⟨x, hx, hpx⟩ := ih k2 hpos
        exact ⟨x, by simpa using hx, hpx⟩

theorem mkOrder_get {gks : List Nat} {itl : List (Nat × VarTensor)} :
    ∀ {deps : List Node} {ic : Nat} {ord : List PolyInputType} {ic2 : Nat},
      mkOrder gks itl ic deps = .ok (ord, ic2) →
      ord.length = deps.length ∧
      ∀ p d r, deps.get? p = some d → ord.get? p = some r →
        (gks.contains d.idx = true → ∃ j, r = .inter j) ∧
        (gks.contains d.idx = false →
          ∃ k, r = .inputRef k ∧ positionIdx (fun x => x.1 == d.idx) itl = some k) := by
  intro deps
  induction deps with
  | nil =>
    intro ic ord ic2 h
    simp only [mkOrder] at h
    cases h
    exact ⟨rfl, fun p d r hp _ => by simp at hp⟩
  | cons d2 rest ih =>
    intro ic ord ic2 h
    simp only [mkOrder] at h
    cases hg : gks.contains d2.idx with
    | true =>
      simp only [hg, if_true] at h
      cases hrec : mkOrder gks itl (ic + 1) rest with
      | error err => simp only [hrec] at h; cases h
      | ok pr =>
        obtain ⟨o, icr⟩ := pr
        simp only [hrec] at h
        cases h
        obtain ⟨hlen, hget⟩ := ih hrec
        refine ⟨by simp [hlen], ?_⟩
        intro p d r hp hr
        cases p with
        | zero =>
          simp only [List.get?_cons_zero] at hp hr
          cases hp
          cases hr
          exact ⟨fun _ => ⟨ic, rfl⟩, fun hfalse => by rw [hg] at hfalse; cases hfalse⟩
        | succ n =>
          simp only [List.get?_cons_succ] at hp hr
          exact hget n d r hp hr
    | false =>
      simp only [hg, Bool.false_eq_true, if_false] at h
      cases hpos : positionIdx (fun x => x.1 == d2.idx) itl with
      | none => simp only [hpos] at h; cases h
      | some pos =>
        simp only [hpos] at h
        cases hrec : mkOrder gks itl ic rest with
        | error err => simp only [hrec] at h; cases h
        | ok pr =>
          obtain ⟨o, icr⟩ := pr
          simp only [hrec] at h
          cases h
          obtain ⟨hlen, hget⟩ := ih hrec
          refine ⟨by simp [hlen], ?_⟩
          intro p d r hp hr
          cases p with
          | zero =>
            simp only [List.get?_cons_zero] at hp hr
            cases hp
            cases hr
            exact ⟨fun htrue => False.elim (by rw [hg] at htrue; exact Bool.noConfusion htrue),
                   fun _ => ⟨pos, rfl, hpos⟩⟩
          | succ n =>
            simp only [List.get?_cons_succ] at hp hr
            exact hget n d r hp hr

theorem mkFusedNodes_get {gks : List Nat} {itl : List (Nat × VarTensor)} :
    ∀ {inodes : List ((Nat × PolyOp) × List Node)} {ic : Nat} {fns : List PolyNode},
      mkFusedNodes gks itl ic inodes = .ok fns →
      fns.length = inodes.length ∧
      ∀ j key op deps, inodes.get? j = some ((key, op), deps) →
        ∃ ord ic0 ic1, fns.get? j = some ⟨op, ord⟩ ∧
          mkOrder gks itl ic0 deps = .ok (ord, ic1) := by
  intro inodes
  induction inodes with
  | nil =>
    intro ic fns h
    simp only [mkFusedNodes] at h
    cases h
    exact ⟨rfl, fun j k o d hp => by simp at hp⟩
  | cons entry rest ih =>
    intro ic fns h
    obtain ⟨⟨key2, op2⟩, deps2⟩ := entry
    simp only [mkFusedNodes] at h
    cases ho : mkOrder gks itl ic deps2 with
    | error err => simp only [ho] at h; cases h
    | ok pr =>
      obtain ⟨o, ic3⟩ := pr
      simp only [ho] at h
      cases hrest : mkFusedNodes gks itl ic3 rest with
      | error err => simp only [hrest] at h; cases h
      | ok tail =>
        simp only [hrest] at h
        cases h
        obtain ⟨hlen, hget⟩ := ih hrest
        refine ⟨by simp [hlen], ?_⟩
        intro j key op deps hp
        cases j with
        | zero =>
          simp only [List.get?_cons_zero] at hp
          cases hp
          exact ⟨o, ic, ic3, rfl, ho⟩
        | succ n =>
          simp only [List.get?_cons_succ] at hp
          exact hget n key op deps hp

theorem conf_poly_ops_elim {m : ModelL} {group : List Node} {vars : ModelVars}
    {pc : PolyConfigData} {idxs : List Nat}
    (h : conf_poly_ops m group vars = .ok (.poly pc idxs)) :
    ∃ inodes,
      mkInputNodes m group = .ok inodes ∧
      mkFusedNodes (group.map (·.idx))
        (extInputsWith canonSet m.visibility (group.map (·.idx)) vars canonSet.empty 0 0
          (inodes.flatMap (·.2))).1 0 inodes = .ok pc.nodes ∧
      pc.inputs = (extInputsWith canonSet m.visibility (group.map (·.idx)) vars
          canonSet.empty 0 0 (inodes.flatMap (·.2))).1.map (·.2) ∧
      idxs = (extInputsWith canonSet m.visibility (group.map (·.idx)) vars
          canonSet.empty 0 0 (inodes.flatMap (·.2))).1.map (·.1) := by
  unfold conf_poly_ops conf_poly_opsWith at h
  cases hin : mkInputNodes m group with
  | error e => simp only [hin] at h; cases h
  | ok inodes =>
    simp only [hin] at h
    cases hmx : listMax (group.map (·.idx)) with
    | none => simp only [hmx] at h; cases h
    | some mk =>
      simp only [hmx] at h
      cases hgf : graphFilter m mk with
      | none => simp only [hgf] at h; cases h
      | some outNode =>
        simp only [hgf] at h
        cases hfn : mkFusedNodes (group.map (·.idx))
            (extInputsWith canonSet m.visibility (group.map (·.idx)) vars canonSet.empty 0 0
              (inodes.flatMap (·.2))).1 0 inodes with
        | error e => simp only [hfn] at h; cases h
        | ok fused =>
          simp only [hfn] at h
          cases h
          exact ⟨inodes, rfl, hfn, rfl, rfl⟩

theorem contains_cons_eq (x k : Nat) (s : List Nat) :
    (x :: s).contains k = (k == x || s.contains k) := by
  cases hkx : (k == x) with
  | true => simp [List.contains, List.elem, hkx]
  | false => simp [List.contains, List.elem, hkx]

theorem contains_cons_self (x : Nat) (s : List Nat) :
    (x :: s).contains x = true := by
  rw [contains_cons_eq]
  simp

/-- The external-input allocation (`inputs_to_layer` with the list-backed
seen set): produced keys are distinct, outside the group and the seen set;
every external dependency either was seen before or lands in the output; and
every produced entry carries some dependency's index and a column from the
pool its constness/visibility selects, reshaped to that dependency's
`out_dims`. -/
theorem extInputs_spec (vis : VarVisibility) (gks : List Nat) (vars : ModelVars) :
    ∀ (l : List Node) (s : List Nat) (ai fi : Nat),
      (((extInputsWith canonSet vis gks vars s ai fi l).1.map (·.1)).Nodup) ∧
      (∀ k ∈ (extInputsWith canonSet vis gks vars s ai fi l).1.map (·.1),
         s.contains k = false ∧ gks.contains k = false) ∧
      (∀ d ∈ l, gks.contains d.idx = false →
         s.contains d.idx = true ∨
         d.idx ∈ (extInputsWith canonSet vis gks vars s ai fi l).1.map (·.1)) ∧
      (∀ pr ∈ (extInputsWith canonSet vis gks vars s ai fi l).1, ∃ d ∈ l, d.idx = pr.1 ∧
         ((d.opkind.is_const && vis.params.is_public) = true →
            ∃ i, pr.2 = (vars.fixed i).reshape d.out_dims) ∧
         ((d.opkind.is_const && vis.params.is_public) = false →
            ∃ i, pr.2 = (vars.advices i).reshape d.out_dims)) := by
  intro l
  induction l with
  | nil =>
    intro s ai fi
    refine ⟨by simp [extInputsWith], by simp [extInputsWith], ?_, by simp [extInputsWith]⟩
    intro d hd
    cases hd
  | cons d rest ih =>
    intro s ai fi
    cases hgk : gks.contains d.idx with
    | true =>
      simp only [extInputsWith, canonSet, hgk, if_true]
      obtain ⟨c1, c2, c3, c4⟩ := ih s ai fi
      refine ⟨c1, c2, ?_, ?_⟩
      · intro d2 hd2 hgk2
        rcases List.mem_cons.mp hd2 with rfl | hd2
        · rw [hgk] at hgk2; cases hgk2
        · exact c3 d2 hd2 hgk2
      · intro pr hpr
        obtain ⟨d2, hd2, hrest⟩ := c4 pr hpr
        exact ⟨d2, List.mem_cons_of_mem _ hd2, hrest⟩
    | false =>
      cases hs : s.contains d.idx with
      | true =>
        simp only [extInputsWith, canonSet, hgk, hs, Bool.false_eq_true, if_false, if_true]
        obtain ⟨c1, c2, c3, c4⟩ := ih (d.idx :: s) ai fi
        refine ⟨c1, ?_, ?_, ?_⟩
        · intro k hk
          obtain ⟨hks, hkg⟩ := c2 k hk
          rw [contains_cons_eq] at hks
          exact ⟨(Bool.or_eq_false_iff.mp hks).2, hkg⟩
        · intro d2 hd2 hgk2
          rcases List.mem_cons.mp hd2 with rfl | hd2
          · exact Or.inl hs
          · rcases c3 d2 hd2 hgk2 with hleft | hright
            · rw [contains_cons_eq] at hleft
              cases hdd : (d2.idx == d.idx) with
              | true =>
                have : d2.idx = d.idx := eq_of_beq hdd
                rw [this]
                exact Or.inl hs
              | false =>
                rw [hdd] at hleft
                simp only [Bool.false_or] at hleft
                exact Or.inl hleft
            · exact Or.inr hright
        · intro pr hpr
          obtain ⟨d2, hd2, hrest⟩ := c4 pr hpr
          exact ⟨d2, List.mem_cons_of_mem _ hd2, hrest⟩
      | false =>
        cases hcp : (d.opkind.is_const && vis.params.is_public) with
        | true =>
          simp only [extInputsWith, canonSet, hgk, hs, hcp, Bool.false_eq_true, if_false,
            if_true]
          obtain ⟨c1, c2, c3, c4⟩ := ih (d.idx :: s) ai (fi + 1)
          refine ⟨?_, ?_, ?_, ?_⟩
          · simp only [List.map_cons, List.nodup_cons]
            refine ⟨?_, c1⟩
            intro hmem
            have := (c2 d.idx hmem).1
            rw [contains_cons_self] at this
            cases this
          · intro k hk
            simp only [List.map_cons, List.mem_cons] at hk
            rcases hk with rfl | hk
            · exact ⟨hs, hgk⟩
            · obtain ⟨hks, hkg⟩ := c2 k hk
              rw [contains_cons_eq] at hks
              exact ⟨(Bool.or_eq_false_iff.mp hks).2, hkg⟩
          · intro d2 hd2 hgk2
            rcases List.mem_cons.mp hd2 with rfl | hd2
            · refine Or.inr ?_
              rw [List.map_cons]
              exact List.mem_cons_self _ _
            · rcases c3 d2 hd2 hgk2 with hleft | hright
              · rw [contains_cons_eq] at hleft
                cases hdd : (d2.idx == d.idx) with
                | true =>
                  have heq : d2.idx = d.idx := eq_of_beq hdd
                  rw [heq]
                  refine Or.inr ?_
                  rw [List.map_cons]
                  exact List.mem_cons_self _ _
                | false =>
                  rw [hdd] at hleft
                  simp only [Bool.false_or] at hleft
                  exact Or.inl hleft
              · refine Or.inr ?_
                rw [List.map_cons]
                exact List.mem_cons_of_mem _ hright
          · intro pr hpr
            rcases List.mem_cons.mp hpr with rfl | hpr
            · refine ⟨d, List.mem_cons_self _ _, rfl, fun _ => ⟨fi, rfl⟩, fun hf => ?_⟩
              rw [hf] at hcp
              cases hcp
            · obtain ⟨d2, hd2, hrest⟩ := c4 pr hpr
              exact ⟨d2, List.mem_cons_of_mem _ hd2, hrest⟩
        | false =>
          simp only [extInputsWith, canonSet, hgk, hs, hcp, Bool.false_eq_true, if_false]
          obtain ⟨c1, c2, c3, c4⟩ := ih (d.idx :: s) (ai + 1) fi
          refine ⟨?_, ?_, ?_, ?_⟩
          · simp only [List.map_cons, List.nodup_cons]
            refine ⟨?_, c1⟩
            intro hmem
            have := (c2 d.idx hmem).1
            rw [contains_cons_self] at this
            cases this
          · intro k hk
            simp only [List.map_cons, List.mem_cons] at hk
            rcases hk with rfl | hk
            · exact ⟨hs, hgk⟩
            · obtain ⟨hks, hkg⟩ := c2 k hk
              rw [contains_cons_eq] at hks
              exact ⟨(Bool.or_eq_false_iff.mp hks).2, hkg⟩
          · intro d2 hd2 hgk2
            rcases List.mem_cons.mp hd2 with rfl | hd2
            · refine Or.inr ?_
              rw [List.map_cons]
              exact List.mem_cons_self _ _
            · rcases c3 d2 hd2 hgk2 with hleft | hright
              · rw [contains_cons_eq] at hleft
                cases hdd : (d2.idx == d.idx) with
                | true =>
                  have heq : d2.idx = d.idx := eq_of_beq hdd
                  rw [heq]
                  refine Or.inr ?_
                  rw [List.map_cons]
                  exact List.mem_cons_self _ _
                | false =>
                  rw [hdd] at hleft
                  simp only [Bool.false_or] at hleft
                  exact Or.inl hleft
              · refine Or.inr ?_
                rw [List.map_cons]
                exact List.mem_cons_of_mem _ hright
          · intro pr hpr
            rcases List.mem_cons.mp hpr with rfl | hpr
            · refine ⟨d, List.mem_cons_self _ _, rfl, fun ht => ?_, fun _ => ⟨ai, rfl⟩⟩
              rw [ht] at hcp
              cases hcp
            · obtain ⟨d2, hd2, hrest⟩ := c4 pr hpr
              exact ⟨d2, List.mem_cons_of_mem _ hd2, hrest⟩

/-- C2: in the fused instruction list built by `conf_poly_ops`, every entry
carries its member node's operator descriptor, has one reference per input
edge, and a reference is `Inter` exactly when the referenced dependency is
itself a member of the fused group, `Input` exactly when it is external.
Concretely: for a bucket with `C` depending on externals `A` and `B`, the
fused configuration has exactly two `Input` references and zero `Inter`
references; for a chain `X → A → B → C` with `A, B, C` fused, `B`'s
reference to `A` is `Inter 0`, not `Input`. -/
theorem poly_fusion_refs :
    (∀ (m : ModelL) (group : List Node) (vars : ModelVars) (pc : PolyConfigData)
       (idxs : List Nat),
       conf_poly_ops m group vars = .ok (.poly pc idxs) →
       pc.nodes.length = group.length ∧
       ∀ j gn fn, group.get? j = some gn → pc.nodes.get? j = some fn →
         gn.opkind = .poly fn.op ∧
         fn.input_order.length = gn.inputs.length ∧
         ∀ p e d r, gn.inputs.get? p = some e → graphFilter m e.node = some d →
           fn.input_order.get? p = some r →
           r.isInter = (group.map (·.idx)).contains d.idx ∧
           r.isInput = !(group.map (·.idx)).contains d.idx) ∧
    (conf_poly_ops m2a g2a ModelVars.std =
       .ok (.poly ⟨[⟨.advice, 0, [1]⟩, ⟨.advice, 1, [1]⟩], ⟨.advice, 2, [1]⟩,
                   [⟨.add, [.inputRef 0, .inputRef 1]⟩]⟩ [0, 1]) ∧
     ([(⟨.add, [.inputRef 0, .inputRef 1]⟩ : PolyNode)].foldl
        (fun acc fn => acc + fn.input_order.countP (·.isInput)) 0 = 2) ∧
     ([(⟨.add, [.inputRef 0, .inputRef 1]⟩ : PolyNode)].foldl
        (fun acc fn => acc + fn.input_order.countP (·.isInter)) 0 = 0)) ∧
    (conf_poly_ops m2b g2b ModelVars.std =
       .ok (.poly ⟨[⟨.advice, 0, [1]⟩], ⟨.advice, 1, [1]⟩,
                   [⟨.add, [.inputRef 0]⟩, ⟨.add, [.inter 0]⟩, ⟨.add, [.inter 1]⟩]⟩ [0]) ∧
     ([(⟨.add, [.inputRef 0]⟩ : PolyNode), ⟨.add, [.inter 0]⟩, ⟨.add, [.inter 1]⟩].get? 1 =
       some ⟨.add, [.inter 0]⟩)) := by
  refine ⟨?_, ⟨rfl, by decide, by decide⟩, ⟨rfl, by decide⟩⟩
  intro m group vars pc idxs h
  obtain ⟨inodes, hin, hfn, hpci, hidxs⟩ := conf_poly_ops_elim h
  obtain ⟨hilen, higet⟩ := mkInputNodes_get hin
  obtain ⟨hflen, hfget⟩ := mkFusedNodes_get hfn
  refine ⟨by rw [hflen, hilen], ?_⟩
  intro j gn fn hj hfj
  obtain ⟨op, deps, hop, hinj, hres⟩ := higet j gn hj
  obtain ⟨ord, ic0, ic1, hfnj, hord⟩ := hfget j gn.idx op deps hinj
  rw [hfj] at hfnj
  cases hfnj
  obtain ⟨hrlen, hrget⟩ := resolveInputs_get hres
  obtain ⟨holen, hoget⟩ := mkOrder_get hord
  refine ⟨hop, by rw [holen, hrlen], ?_⟩
  intro p e d r hpe hfd hpr
  obtain ⟨d2, hd2, hfd2⟩ := hrget p e hpe
  rw [hfd] at hfd2
  cases hfd2
  obtain ⟨hinter, hinput⟩ := hoget p d r hd2 hpr
  cases hg : (group.map (·.idx)).contains d.idx with
  | true =>
    obtain ⟨j2, hj2⟩ := hinter hg
    rw [hj2]
    exact ⟨rfl, rfl⟩
  | false =>
    obtain ⟨k, hk, _⟩ := hinput hg
    rw [hk]
    exact ⟨rfl, rfl⟩

/-- Witness for C2: the general reference-classification statement applied to
the two-external-inputs scenario. -/
theorem poly_fusion_refs_witness :
    conf_poly_ops m2a g2a ModelVars.std =
      .ok (.poly ⟨[⟨.advice, 0, [1]⟩, ⟨.advice, 1, [1]⟩], ⟨.advice, 2, [1]⟩,
                  [⟨.add, [.inputRef 0, .inputRef 1]⟩]⟩ [0, 1]) ∧
    ([(⟨.add, [.inputRef 0, .inputRef 1]⟩ : PolyNode)] : List PolyNode).length = g2a.length :=
  ⟨rfl,
   (poly_fusion_refs.1 m2a g2a ModelVars.std
      ⟨[⟨.advice, 0, [1]⟩, ⟨.advice, 1, [1]⟩], ⟨.advice, 2, [1]⟩,
       [⟨.add, [.inputRef 0, .inputRef 1]⟩]⟩ [0, 1] rfl).1⟩

/-- C4: the external inputs of a fused group are deduplicated by first
occurrence — the allocated slot keys are pairwise distinct, so no external
node is allocated twice — and every later duplicate `Input k` reference
resolves to the slot holding exactly that dependency's index; each allocated
slot's column comes from the fixed pool iff the dependency is a constant and
parameters are public, otherwise from the advice pool, reshaped to the
dependency's output shape.  Concretely: with `C` referencing Input 0,
Const 1 and Input 0 again under public parameters, only two slots `[0, 1]`
are allocated, the third reference reuses slot 0, and the constant's slot is
a fixed column. -/
theorem external_inputs_dedup_alloc :
    (∀ (m : ModelL) (group : List Node) (vars : ModelVars) (pc : PolyConfigData)
       (idxs : List Nat),
       conf_poly_ops m group vars = .ok (.poly pc idxs) → ModelVars.WF vars →
       idxs.Nodup ∧
       (∀ p k vt, idxs.get? p = some k → pc.inputs.get? p = some vt →
         ∃ gn ∈ group, ∃ e ∈ gn.inputs, ∃ d,
           graphFilter m e.node = some d ∧ d.idx = k ∧
           vt.kind = (if d.opkind.is_const && m.visibility.params.is_public then
             ColKind.fixed else ColKind.advice) ∧
           vt.shape = d.out_dims) ∧
       (∀ j gn fn p e d k, group.get? j = some gn → pc.nodes.get? j = some fn →
         gn.inputs.get? p = some e → graphFilter m e.node = some d →
         fn.input_order.get? p = some (.inputRef k) →
         idxs.get? k = some d.idx)) ∧
    (conf_poly_ops m4 g4 ModelVars.std =
       .ok (.poly ⟨[⟨.advice, 0, [1]⟩, ⟨.fixed, 0, [1]⟩], ⟨.advice, 1, [1]⟩,
                   [⟨.add, [.inputRef 0, .inputRef 1, .inputRef 0]⟩]⟩ [0, 1]) ∧
     ([0, 1] : List Nat).Nodup ∧
     ((⟨.add, [.inputRef 0, .inputRef 1, .inputRef 0]⟩ : PolyNode).input_order.get? 2 =
        some (.inputRef 0)) ∧
     (⟨.fixed, 0, [1]⟩ : VarTensor).kind = ColKind.fixed) := by
  refine ⟨?_, rfl, by decide, by decide, rfl⟩
  intro m group vars pc idxs h hwf
  obtain ⟨inodes, hin, hfn, hpci, hidxs⟩ := conf_poly_ops_elim h
  obtain ⟨c1, c2, c3, c4⟩ := extInputs_spec m.visibility (group.map (·.idx)) vars
    (inodes.flatMap (·.2)) canonSet.empty 0 0
  refine ⟨?_, ?_, ?_⟩
  · rw [hidxs]
    exact c1
  · intro p k vt hpk hpv
    rw [hidxs, List.get?_map] at hpk
    rw [hpci, List.get?_map] at hpv
    cases hq : (extInputsWith canonSet m.visibility (group.map (·.idx)) vars
        canonSet.empty 0 0 (inodes.flatMap (·.2))).1.get? p with
    | none =>
      rw [hq] at hpk
      cases hpk
    | some pr =>
      rw [hq] at hpk hpv
      simp only [Option.map_some'] at hpk hpv
      cases hpk
      cases hpv
      have hprmem := List.get?_mem hq
      obtain ⟨d2, hd2mem, hidx_eq, hfix, hadv⟩ := c4 pr hprmem
      obtain ⟨gn, hgn, e, he, hfe⟩ := mkInputNodes_flat_mem hin d2 hd2mem
      refine ⟨gn, hgn, e, he, d2, hfe, hidx_eq, ?_, ?_⟩
      · cases hc : (d2.opkind.is_const && m.visibility.params.is_public) with
        | true =>
          obtain ⟨i, hpr2⟩ := hfix hc
          rw [hpr2]
          simp [VarTensor.reshape, (hwf.2.1) i, hc]
        | false =>
          obtain ⟨i, hpr2⟩ := hadv hc
          rw [hpr2]
          simp [VarTensor.reshape, (hwf.1) i, hc]
      · cases hc : (d2.opkind.is_const && m.visibility.params.is_public) with
        | true =>
          obtain ⟨i, hpr2⟩ := hfix hc
          rw [hpr2]
          rfl
        | false =>
          obtain ⟨i, hpr2⟩ := hadv hc
          rw [hpr2]
          rfl
  · intro j gn fn p e d k hj hfj hpe hfd hpr
    obtain ⟨op, deps, hop, hinj, hres⟩ := (mkInputNodes_get hin).2 j gn hj
    obtain ⟨ord, ic0, ic1, hfnj, hord⟩ := (mkFusedNodes_get hfn).2 j gn.idx op deps hinj
    rw [hfj] at hfnj
    cases hfnj
    obtain ⟨_, hrget⟩ := resolveInputs_get hres
    obtain ⟨d2, hd2, hfd2⟩ := hrget p e hpe
    rw [hfd] at hfd2
    cases hfd2
    obtain ⟨_, hoget⟩ := mkOrder_get hord
    obtain ⟨hinter, hinput⟩ := hoget p d (.inputRef k) hd2 hpr
    cases hg : (group.map (·.idx)).contains d.idx with
    | true =>
      obtain ⟨j2, hj2⟩ := hinter hg
      cases hj2
    | false =>
      obtain ⟨k2, hk2, hpos⟩ := hinput hg
      cases hk2
      obtain ⟨x, hx, hpx⟩ := positionIdx_found _ _ k hpos
      rw [hidxs, List.get?_map, hx]
      have hxeq : x.1 = d.idx := eq_of_beq (by simpa using hpx)
      rw [Option.map_some', hxeq]

/-- Witness for C4: the dedup/allocation statement applied to the
duplicate-reference scenario with a public constant parameter. -/
theorem external_inputs_dedup_alloc_witness :
    conf_poly_ops m4 g4 ModelVars.std =
      .ok (.poly ⟨[⟨.advice, 0, [1]⟩, ⟨.fixed, 0, [1]⟩], ⟨.advice, 1, [1]⟩,
                  [⟨.add, [.inputRef 0, .inputRef 1, .inputRef 0]⟩]⟩ [0, 1]) ∧
    ModelVars.WF ModelVars.std ∧
    ([0, 1] : List Nat).Nodup :=
  ⟨rfl, ModelVars.std_wf,
   (external_inputs_dedup_alloc.1 m4 g4 ModelVars.std
      ⟨[⟨.advice, 0, [1]⟩, ⟨.fixed, 0, [1]⟩], ⟨.advice, 1, [1]⟩,
       [⟨.add, [.inputRef 0, .inputRef 1, .inputRef 0]⟩]⟩ [0, 1] rfl ModelVars.std_wf).1⟩

/-! ## C5: determinism of `configure`

The only library state `configure` consults beyond its arguments is the
`seen : HashSet<usize>` of `conf_poly_ops`, used solely through
membership-test-and-insert.  We show the compiled `ModelConfig` is identical
for any two lawful set implementations — the hash set's internals (and hence
any run-to-run variation) cannot influence the output, so two compilations
of the same model with the same pool produce structurally identical
configurations. -/

theorem canonSet_lawful : SetImpl.Lawful canonSet :=
  ⟨fun _ => rfl, fun x y s => contains_cons_eq y x s⟩

theorem contains_append_single (s : List Nat) (y x : Nat) :
    (s ++ [y]).contains x = (x == y || s.contains x) := by
  induction s with
  | nil =>
    rw [List.nil_append, contains_cons_eq]
  | cons a t ih =>
    rw [List.cons_append, contains_cons_eq, ih, contains_cons_eq]
    cases x == a <;> cases x == y <;> simp

theorem appendSet_lawful : SetImpl.Lawful appendSet :=
  ⟨fun _ => rfl, fun x y s => contains_append_single s y x⟩

theorem extInputs_impl_irrelevant (σ τ : SetImpl) (hσ : σ.Lawful) (hτ : τ.Lawful)
    (vis : VarVisibility) (gks : List Nat) (vars : ModelVars) :
    ∀ (l : List Node) (s : σ.S) (t : τ.S), (∀ x, σ.mem x s = τ.mem x t) →
      ∀ ai fi, extInputsWith σ vis gks vars s ai fi l =
        extInputsWith τ vis gks vars t ai fi l := by
  intro l
  induction l with
  | nil => intro s t hst ai fi; rfl
  | cons d rest ih =>
    intro s t hst ai fi
    have hins : ∀ x, σ.mem x (σ.insert d.idx s) = τ.mem x (τ.insert d.idx t) := by
      intro x
      rw [hσ.2 x d.idx s, hτ.2 x d.idx t, hst x]
    simp only [extInputsWith]
    cases hgk : gks.contains d.idx with
    | true =>
      simp only [hgk, if_true]
      exact ih s t hst ai fi
    | false =>
      simp only [hgk, Bool.false_eq_true, if_false]
      cases hm : σ.mem d.idx s with
      | true =>
        have hm2 : τ.mem d.idx t = true := by rw [← hst d.idx]; exact hm
        simp only [hm, hm2, if_true]
        exact ih _ _ hins ai fi
      | false =>
        have hm2 : τ.mem d.idx t = false := by rw [← hst d.idx]; exact hm
        simp only [hm, hm2, Bool.false_eq_true, if_false]
        cases hcp : (d.opkind.is_const && vis.params.is_public) with
        | true =>
          simp only [hcp, if_true]
          rw [ih _ _ hins ai (fi + 1)]
        | false =>
          simp only [hcp, Bool.false_eq_true, if_false]
          rw [ih _ _ hins (ai + 1) fi]

theorem conf_poly_opsWith_impl (σ τ : SetImpl) (hσ : σ.Lawful) (hτ : τ.Lawful)
    (m : ModelL) (group : List Node) (vars : ModelVars) :
    conf_poly_opsWith σ m group vars = conf_poly_opsWith τ m group vars := by
  cases hms : mkInputNodes m group with
  | error e => simp only [conf_poly_opsWith, hms]
  | ok inodes =>
    simp only [conf_poly_opsWith, hms]
    have hs : ∀ x, σ.mem x σ.empty = τ.mem x τ.empty := by
      intro x
      rw [hσ.1 x, hτ.1 x]
    rw [extInputs_impl_irrelevant σ τ hσ hτ m.visibility (group.map (·.idx)) vars
      (inodes.flatMap (·.2)) σ.empty τ.empty hs 0 0]

theorem configureBucketWith_impl (σ τ : SetImpl) (hσ : σ.Lawful) (hτ : τ.Lawful)
    (m : ModelL) (vars : ModelVars) (st : ConfSt) (bnodes : List Node) :
    configureBucketWith σ m vars st bnodes = configureBucketWith τ m vars st bnodes := by
  simp only [configureBucketWith]
  rw [conf_poly_opsWith_impl σ τ hσ hτ m (bnodes.filter (fun n => n.opkind.is_poly)) vars]

/-- C5: `configure` is deterministic — its result does not depend on the
internal state or representation of the `seen` hash set, the one piece of
library state it consults: for any two lawful set implementations the
compiled `ModelConfig`s (configuration map, region arena, range checks and
packing regions, hence all column assignments and fused instruction
orderings) are equal.  Two compilations of the same model with the same
Variable Pool therefore produce structurally identical configurations. -/
theorem configure_deterministic (m : ModelL) (vars : ModelVars) :
    SetImpl.Lawful canonSet ∧
    ∀ σ τ : SetImpl, σ.Lawful → τ.Lawful →
      configureWith σ m vars = configureWith τ m vars := by
  refine ⟨canonSet_lawful, ?_⟩
  intro σ τ hσ hτ
  unfold configureWith
  have hfold : ∀ (bs : List (Option Nat × List Node)) (st : ConfSt),
      bs.foldlM (fun st (b : Option Nat × List Node) =>
        configureBucketWith σ m vars st b.2) st =
      bs.foldlM (fun st (b : Option Nat × List Node) =>
        configureBucketWith τ m vars st b.2) st := by
    intro bs
    induction bs with
    | nil => intro st; rfl
    | cons b rest ih =>
      intro st
      simp only [List.foldlM_cons]
      rw [configureBucketWith_impl σ τ hσ hτ m vars st b.2]
      cases configureBucketWith τ m vars st b.2 with
      | error e => rfl
      | ok st2 => exact ih st2
  rw [hfold m.nodes ConfSt.init]

/-- Witness for C5: the list-backed and append-backed seen sets produce the
same compiled configuration on the dedup scenario model, and that
configuration is concretely the expected one. -/
theorem configure_deterministic_witness :
    SetImpl.Lawful appendSet ∧
    configureWith canonSet m4 ModelVars.std = configureWith appendSet m4 ModelVars.std ∧
    configureWith appendSet m4 ModelVars.std =
      .ok ⟨[(0, .input), (1, .const),
            (2, .poly ⟨[⟨.advice, 0, [1]⟩, ⟨.fixed, 0, [1]⟩], ⟨.advice, 1, [1]⟩,
                       [⟨.add, [.inputRef 0, .inputRef 1, .inputRef 0]⟩]⟩ [0, 1])],
           [],
           [⟨⟨.advice, 0, [1]⟩, ⟨.advice, 1, [1]⟩, 0⟩],
           []⟩ :=
  ⟨appendSet_lawful,
   (configure_deterministic m4 ModelVars.std).2 canonSet appendSet
     canonSet_lawful appendSet_lawful,
   rfl⟩

end EzklModel
